import Mathlib

/-!
# MultiBoost Haar weak learner: serialisation, option handling, character table

A shallow embedding of

* `nor_utils::Rect` and `nor_utils::white_spaces` (utils/utils.h),
* `HaarLearner::initOptions`, `HaarLearner::save`, `HaarLearner::load`
  (weak_learners/haar_learner.cpp),

followed by the properties established about them.  Text is a list of
characters; a C++ `short` is an integer together with its range proof.
-/

namespace nor_utils

/-- A C++ `short`: an integer in the 16-bit signed range. -/
structure Short where
  val : Int
  lo : -32768 ≤ val
  hi : val ≤ 32767
  deriving DecidableEq

/-- The `short` with value zero. -/
def Short.zero : Short := ⟨0, by decide, by decide⟩

/-- Simple structure of a rectangle (`struct Rect`): four `short` fields.
The structure constructor is the four-argument constructor
`Rect(short x, short y, short width, short height)`, which stores its
arguments unchanged. -/
structure Rect where
  x : Short
  y : Short
  width : Short
  height : Short
  deriving DecidableEq

/-- The constructor `Rect()` that sets everything to 0. -/
def Rect.default : Rect := ⟨Short.zero, Short.zero, Short.zero, Short.zero⟩

/-- All four fields of a rectangle lie in the 16-bit signed range. -/
def Rect.inShortRange (r : Rect) : Prop :=
  (-32768 ≤ r.x.val ∧ r.x.val ≤ 32767) ∧ (-32768 ≤ r.y.val ∧ r.y.val ≤ 32767) ∧
  (-32768 ≤ r.width.val ∧ r.width.val ≤ 32767) ∧
  (-32768 ≤ r.height.val ∧ r.height.val ≤ 32767)

/-- The size invariant the data model asks for: width and height are not negative. -/
def Rect.nonNegSize (r : Rect) : Prop := 0 ≤ r.width.val ∧ 0 ≤ r.height.val

/-! ## `white_spaces` -/

/-- The number of entries of a `ctype<char>` classification table
(`ctype<char>::table_size`). -/
def table_size : Nat := 256

/-- A `ctype_base::mask`: a bit mask, kept as a natural number. -/
abbrev mask := Nat

/-- The value-initialised mask `ctype_base::mask()`. -/
def emptyMask : mask := 0

/-- A plain `char`, the element type of `string`: one signed byte, as on the
platforms where plain `char` is signed. -/
structure PlainChar where
  val : Int
  lo : -128 ≤ val
  hi : val ≤ 127
  deriving DecidableEq

/-- A classification table: `table_size` masks, indexed `0 .. table_size - 1`. -/
abbrev Table := Fin table_size → mask

/-- The index `(unsigned char) c` under which `ctype<char>` looks the
character `c` up in its table. -/
def PlainChar.toIndex (c : PlainChar) : Fin table_size :=
  ⟨(c.val % 256).toNat, by
    have h1 := Int.emod_nonneg c.val (by decide : (256 : Int) ≠ 0)
    have h2 := Int.emod_lt_of_pos c.val (by decide : (0 : Int) < 256)
    show (c.val % 256).toNat < 256
    omega⟩

/-- The assignment `_rc[i] = m` for an index inside the table. -/
def Table.set (t : Table) (i : Fin table_size) (m : mask) : Table :=
  fun j => if j = i then m else t j

/-- The assignment `_rc[i] = m` for a signed index, as in `_rc[*it]`: an index
inside the table overwrites that entry; any other index addresses memory
outside the table and leaves every entry of the table as it was. -/
def Table.setAt (t : Table) (i : Int) (m : mask) : Table :=
  if h : 0 ≤ i ∧ i < 256 then
    t.set ⟨i.toNat, by show i.toNat < 256; omega⟩ m
  else t

/-- The newline character. -/
def newline : PlainChar := ⟨10, by decide, by decide⟩

/-- `white_spaces::init(sepChars)`.  `raw` is the content of the freshly
allocated array `new ctype_base::mask[table_size]`, `space` the value of
`ctype_base::space`.  The first loop clears every entry, the second executes
`_rc[*it] = ctype_base::space` for every character of `sepChars`, and the
newline is marked last. -/
def white_spaces.init (space : mask) (raw : Table) (sepChars : List PlainChar) : Table :=
  let cleared := (List.finRange table_size).foldl (fun rc i => rc.set i emptyMask) raw
  let marked := sepChars.foldl (fun rc c => rc.setAt c.val space) cleared
  marked.setAt newline.val space

/-- The character with the byte value 0xE9, which as a signed `char` is -23. -/
def highChar : PlainChar := ⟨-23, by decide, by decide⟩

end nor_utils

namespace MultiBoost

open nor_utils

/-! ## The learner's state -/

/-- The five Haar-like feature types listed by `declareArguments`. -/
inductive FeatureTypeCode where
  | f2v | f2h | f3v | f3h | f4q
  deriving DecidableEq, Repr

/-- The short name of a feature type, as written on the command line and in
the model file. -/
def FeatureTypeCode.shortName : FeatureTypeCode → List Char
  | .f2v => ['2', 'v']
  | .f2h => ['2', 'h']
  | .f3v => ['3', 'v']
  | .f3h => ['3', 'h']
  | .f4q => ['4', 'q']

/-- Modelled from the spec: the registered feature-type descriptor
(`HaarFeature`, others/haar_features.h is not among the sources).  It carries
its feature type code and the factory that rebuilds the feature. -/
structure HaarFeature where
  code : FeatureTypeCode
  factory : Nat
  deriving DecidableEq

/-- The call `getShortName()` on a feature. -/
def HaarFeature.getShortName (f : HaarFeature) : List Char := f.code.shortName

/-- Modelled from the spec: the sampling type of the learner (its declaration in
weak_learners/haar_learner.h is not among the sources).  `ST_NUM` and `ST_TIME`
are the two values `initOptions` assigns, bounded by count and bounded by time;
`ST_NO_SAMPLING` is the exhaustive choice of the sampling policy. -/
inductive SamplingType where
  | ST_NO_SAMPLING | ST_NUM | ST_TIME
  deriving DecidableEq, Repr

/-- The fields of `HaarLearner` the three operations read and write. -/
structure HaarLearner where
  _samplingType : SamplingType
  _samplingVal : Int
  _pSelectedFeature : Option HaarFeature
  _selectedConfig : Rect
  deriving DecidableEq

/-! ## `initOptions` -/

/-- The part of `nor_utils::Args` that `initOptions` calls (utils/args.h is not
among the sources, so the accessors are taken as given):
`hasArgument(name)`, `getValue<string>(name, i)`, `getValue<int>(name, i)` and
`getValue<unsigned int>(name, i)`. -/
structure Args where
  hasArgument : String → Bool
  getValueString : String → Nat → String
  getValueInt : String → Nat → Int
  getValueUInt : String → Nat → Nat

/-- `HaarLearner::initOptions(args)`.  The second component of the state is the
seed of the C library generator, which `srand` overwrites. -/
def HaarLearner.initOptions (args : Args) (l : HaarLearner) (randSeed : Nat) :
    HaarLearner × Nat :=
  let l1 :=
    if args.hasArgument "csample" then
      let randSearch := args.getValueString "csample" 0
      let l0 := { l with _samplingVal := args.getValueInt "csample" 1 }
      if randSearch = "num" then { l0 with _samplingType := SamplingType.ST_NUM }
      else if randSearch = "time" then { l0 with _samplingType := SamplingType.ST_TIME }
      else l0
    else l
  let seed1 := if args.hasArgument "seed" then args.getValueUInt "seed" 0 else randSeed
  (l1, seed1)

/-! ## Printing and reading numbers -/

/-- The decimal digit character of `d % 10`. -/
def digitChar (d : Nat) : Char :=
  match d % 10 with
  | 0 => '0' | 1 => '1' | 2 => '2' | 3 => '3' | 4 => '4'
  | 5 => '5' | 6 => '6' | 7 => '7' | 8 => '8' | _ => '9'

/-- The value of a decimal digit character. -/
def digitVal (c : Char) : Option Nat :=
  if c = '0' then some 0 else if c = '1' then some 1 else if c = '2' then some 2
  else if c = '3' then some 3 else if c = '4' then some 4 else if c = '5' then some 5
  else if c = '6' then some 6 else if c = '7' then some 7 else if c = '8' then some 8
  else if c = '9' then some 9 else none

/-- The decimal digits of `n` put in front of `acc`, most significant first;
`fuel` bounds the number of digits. -/
def natDigits : Nat → Nat → List Char → List Char
  | 0, _, acc => acc
  | fuel + 1, n, acc =>
    if n / 10 = 0 then digitChar n :: acc
    else natDigits fuel (n / 10) (digitChar n :: acc)

/-- A natural number in decimal. -/
def showNat (n : Nat) : List Char := natDigits (n + 1) n []

/-- What `operator<<` writes for an integer: decimal, with a leading minus sign
when negative. -/
def showInt (v : Int) : List Char :=
  if v < 0 then '-' :: showNat (-v).toNat else showNat v.toNat

/-- Reads a run of decimal digits onto the accumulator. -/
def parseDigits : List Char → Nat → Option Nat
  | [], acc => some acc
  | c :: cs, acc =>
    match digitVal c with
    | some d => parseDigits cs (acc * 10 + d)
    | none => none

/-- Reads a non-empty run of decimal digits. -/
def parseNat (s : List Char) : Option Nat :=
  match s with
  | [] => none
  | _ :: _ => parseDigits s 0

/-- Reads an integer: an optional minus sign and a non-empty run of digits. -/
def parseInt (s : List Char) : Option Int :=
  match s with
  | [] => none
  | c :: ds =>
    if c = '-' then
      match parseNat ds with
      | some n => some (-(Int.ofNat n))
      | none => none
    else
      match parseNat (c :: ds) with
      | some n => some (Int.ofNat n)
      | none => none

/-- Modelled from the spec: the value parser of
`seekAndParseEnclosedValue<short>` (io/serialization.h is not among the
sources).  The enclosed text is parsed as an integer that must be representable
in the 16-bit signed range; anything else is a parse violation. -/
def parseShort (s : List Char) : Option Short :=
  match parseInt s with
  | some v => if h : -32768 ≤ v ∧ v ≤ 32767 then some ⟨v, h.1, h.2⟩ else none
  | none => none

/-- Modelled from the spec: the value parser of
`seekAndParseEnclosedValue<string>`: the enclosed text is the type string. -/
def parseString (s : List Char) : Option (List Char) := some s

/-! ## The token stream -/

/-- Modelled from the spec: a token of the tagged text (utils/stream_tokenizer.h
is not among the sources): an opening tag, a closing tag, or the text between
two tags. -/
inductive Token where
  | openTag (name : List Char)
  | closeTag (name : List Char)
  | text (s : List Char)
  deriving DecidableEq

/-- Modelled from the spec: `nor_utils::StreamTokenizer`, a token reader over a
pre-tokenized sequence; the state of the cursor is the list of tokens not yet
read. -/
abbrev StreamTokenizer := List Token

/-- The token of a tag with the given content between `<` and `>`. -/
def mkTag (name : List Char) : Token :=
  match name with
  | [] => Token.openTag []
  | c :: n => if c = '/' then Token.closeTag n else Token.openTag (c :: n)

/-- The token of a run of text, none when the run is empty. -/
def textToken (s : List Char) : List Token :=
  match s with
  | [] => []
  | _ :: _ => [Token.text s]

/-- Modelled from the spec: the scanner behind `tokenize`.  `inTag` tells whether
a `<` is open, `acc` holds the characters of the current run in reverse. -/
def tokenizeAux : List Char → Bool → List Char → List Token
  | [], false, acc => textToken acc.reverse
  | [], true, _ => []
  | c :: cs, false, acc =>
    if c = '<' then textToken acc.reverse ++ tokenizeAux cs true []
    else tokenizeAux cs false (c :: acc)
  | c :: cs, true, acc =>
    if c = '>' then mkTag acc.reverse :: tokenizeAux cs false []
    else tokenizeAux cs true (c :: acc)

/-- Modelled from the spec: the tokens of a tagged text.  `<name>` is an opening
tag, `</name>` a closing tag, every non-empty run between two tags a text
token; a `<` that is never closed yields no token. -/
def tokenize (s : List Char) : StreamTokenizer := tokenizeAux s false []

/-! ## `Serialization` and `UnSerialization` -/

/-- Modelled from the spec: the two failures of `load` in the error taxonomy,
a registry lookup miss and a tag-order or parse violation. -/
inductive LoadError where
  | UnknownFeatureType
  | MalformedSerializedFeature
  deriving DecidableEq, Repr

/-- Modelled from the spec: `Serialization::getTabs(numTabs)` (io/serialization.h
is not among the sources): indentation proportional to the nesting depth, that
is `numTabs` copies of the indentation unit `indent`. -/
def Serialization.getTabs (indent : List Char) (numTabs : Int) : List Char :=
  (List.replicate numTabs.toNat indent).flatten

/-- Modelled from the spec: `Serialization::standardTag(tagName, value, numTabs)`:
the indentation, then the value enclosed in the opening and the closing tag. -/
def Serialization.standardTag (indent : List Char) (tagName value : List Char)
    (numTabs : Int) : List Char :=
  Serialization.getTabs indent numTabs ++ '<' :: tagName ++ '>' :: value
    ++ '<' :: '/' :: tagName ++ ['>']

/-- Modelled from the spec: the forward scan for the first opening tag `tag`.
Returns whether it was found and the cursor behind it (the end of the stream
when it was not). -/
def UnSerialization.seekSimpleTag (tag : List Char) : StreamTokenizer → Bool × StreamTokenizer
  | [] => (false, [])
  | tok :: rest =>
    if tok = Token.openTag tag then (true, rest)
    else UnSerialization.seekSimpleTag tag rest

/-- Modelled from the spec: `UnSerialization::seekAndParseEnclosedValue<T>(st, tag)`:
scans forward to the first occurrence of the tag and parses the value it
encloses.  A tag that is not found, or a value that is missing or does not
parse, is `MalformedSerializedFeature`.  The cursor only moves forward. -/
def UnSerialization.seekAndParseEnclosedValue {α : Type} (parse : List Char → Option α)
    (st : StreamTokenizer) (tag : List Char) : Except LoadError α × StreamTokenizer :=
  match UnSerialization.seekSimpleTag tag st with
  | (false, st1) => (Except.error LoadError.MalformedSerializedFeature, st1)
  | (true, st1) =>
    match st1 with
    | Token.text v :: rest =>
      match parse v with
      | some a => (Except.ok a, rest)
      | none => (Except.error LoadError.MalformedSerializedFeature, rest)
    | _ => (Except.error LoadError.MalformedSerializedFeature, st1)

/-! ## The feature registry -/

/-- Modelled from the spec: the feature registry `HaarFeature::RegisteredFeatures()`,
the catalogue of the registered descriptors, passed explicitly. -/
abbrev FeatureRegistry := List HaarFeature

/-- Modelled from the spec: `getFeature(code)` returns the descriptor registered
for a code, or fails with `UnknownFeatureType` if the code was never registered. -/
def FeatureRegistry.getFeature (reg : FeatureRegistry) (shortName : List Char) :
    Except LoadError HaarFeature :=
  match reg.find? (fun f => decide (f.getShortName = shortName)) with
  | some f => Except.ok f
  | none => Except.error LoadError.UnknownFeatureType

/-! ## `save` and `load` -/

/-- What `<< endl` appends. -/
def endl : List Char := ['\n']

/-- `HaarLearner::save(outputStream, numTabs)`: the content of the output stream
after the call, `none` when `_pSelectedFeature` is the null pointer. -/
def HaarLearner.save (indent : List Char) (l : HaarLearner) (outputStream : List Char)
    (numTabs : Int) : Option (List Char) :=
  match l._pSelectedFeature with
  | none => none
  | some f =>
    some (outputStream
      ++ Serialization.standardTag indent ['t', 'y', 'p', 'e'] f.getShortName numTabs ++ endl
      ++ Serialization.getTabs indent numTabs ++ ['<', 'r', 'e', 'c', 't', '>'] ++ endl
      ++ Serialization.standardTag indent ['x'] (showInt l._selectedConfig.x.val)
          (numTabs + 1) ++ endl
      ++ Serialization.standardTag indent ['y'] (showInt l._selectedConfig.y.val)
          (numTabs + 1) ++ endl
      ++ Serialization.standardTag indent ['w', 'i', 'd', 't', 'h']
          (showInt l._selectedConfig.width.val) (numTabs + 1) ++ endl
      ++ Serialization.standardTag indent ['h', 'e', 'i', 'g', 'h', 't']
          (showInt l._selectedConfig.height.val) (numTabs + 1) ++ endl
      ++ Serialization.getTabs indent numTabs ++ ['<', '/', 'r', 'e', 'c', 't', '>'] ++ endl)

/-- The state `load` leaves behind: the learner, the cursor of the tokenizer,
and the failure that ended the call, if any.  The learner is modified in place,
so the assignments made before a failure remain. -/
structure LoadResult where
  learner : HaarLearner
  st : StreamTokenizer
  error : Option LoadError
  deriving DecidableEq

/-- `HaarLearner::load(st)`, statement by statement: the type string, its
lookup in the registry, then `x`, `y`, `width` and `height`. -/
def HaarLearner.load (reg : FeatureRegistry) (l : HaarLearner) (st : StreamTokenizer) :
    LoadResult :=
  match UnSerialization.seekAndParseEnclosedValue parseString st ['t', 'y', 'p', 'e'] with
  | (Except.error e, st1) => ⟨l, st1, some e⟩
  | (Except.ok shortName, st1) =>
  match reg.getFeature shortName with
  | Except.error e => ⟨l, st1, some e⟩
  | Except.ok f =>
  let l1 := { l with _pSelectedFeature := some f }
  match UnSerialization.seekAndParseEnclosedValue parseShort st1 ['x'] with
  | (Except.error e, st2) => ⟨l1, st2, some e⟩
  | (Except.ok x, st2) =>
  let l2 := { l1 with _selectedConfig := { l1._selectedConfig with x := x } }
  match UnSerialization.seekAndParseEnclosedValue parseShort st2 ['y'] with
  | (Except.error e, st3) => ⟨l2, st3, some e⟩
  | (Except.ok y, st3) =>
  let l3 := { l2 with _selectedConfig := { l2._selectedConfig with y := y } }
  match UnSerialization.seekAndParseEnclosedValue parseShort st3 ['w', 'i', 'd', 't', 'h'] with
  | (Except.error e, st4) => ⟨l3, st4, some e⟩
  | (Except.ok width, st4) =>
  let l4 := { l3 with _selectedConfig := { l3._selectedConfig with width := width } }
  match UnSerialization.seekAndParseEnclosedValue parseShort st4
      ['h', 'e', 'i', 'g', 'h', 't'] with
  | (Except.error e, st5) => ⟨l4, st5, some e⟩
  | (Except.ok height, st5) =>
  ⟨{ l4 with _selectedConfig := { l4._selectedConfig with height := height } }, st5, none⟩

/-! ## Auxiliary definitions used by the statements and their instances -/

/-- The tokens of the record `save` writes for feature `f` and rectangle `r` at
depth `numTabs`, when the stream was empty before. -/
def savedTokens (indent : List Char) (f : HaarFeature) (r : Rect) (numTabs : Int) :
    List Token :=
  textToken (Serialization.getTabs indent numTabs) ++
  [ Token.openTag ['t', 'y', 'p', 'e'], Token.text f.getShortName,
    Token.closeTag ['t', 'y', 'p', 'e'],
    Token.text ('\n' :: Serialization.getTabs indent numTabs),
    Token.openTag ['r', 'e', 'c', 't'],
    Token.text ('\n' :: Serialization.getTabs indent (numTabs + 1)),
    Token.openTag ['x'], Token.text (showInt r.x.val), Token.closeTag ['x'],
    Token.text ('\n' :: Serialization.getTabs indent (numTabs + 1)),
    Token.openTag ['y'], Token.text (showInt r.y.val), Token.closeTag ['y'],
    Token.text ('\n' :: Serialization.getTabs indent (numTabs + 1)),
    Token.openTag ['w', 'i', 'd', 't', 'h'], Token.text (showInt r.width.val),
    Token.closeTag ['w', 'i', 'd', 't', 'h'],
    Token.text ('\n' :: Serialization.getTabs indent (numTabs + 1)),
    Token.openTag ['h', 'e', 'i', 'g', 'h', 't'], Token.text (showInt r.height.val),
    Token.closeTag ['h', 'e', 'i', 'g', 'h', 't'],
    Token.text ('\n' :: Serialization.getTabs indent numTabs),
    Token.closeTag ['r', 'e', 'c', 't'], Token.text ['\n'] ]

/-- The command line `-csample <sel> <v>`, with `-seed <s>` when a seed is given. -/
def csampleArgs (sel : String) (v : Int) (seed : Option Nat) : Args where
  hasArgument := fun name => name == "csample" || (name == "seed" && seed.isSome)
  getValueString := fun _ _ => sel
  getValueInt := fun _ _ => v
  getValueUInt := fun _ _ => seed.getD 0

/-- A learner as constructed: exhaustive search, nothing selected. -/
def freshLearner : HaarLearner := ⟨SamplingType.ST_NO_SAMPLING, 0, none, Rect.default⟩

/-- The stream `st` read forward: the first `type` tag with its value `t`, then
the first `x` tag behind it with its value, then the first `y`, `width` and
`height` tags, each behind the value read before; `rest` is what follows the
value of `height`.  The skipped stretches `p0 .. p4` are arbitrary except that
none holds the tag sought across it. -/
def readsForward (st : StreamTokenizer) (t vx vy vw vh : List Char)
    (rest : StreamTokenizer) : Prop :=
  ∃ p0 p1 p2 p3 p4 : List Token,
    st = p0 ++ Token.openTag ['t', 'y', 'p', 'e'] :: Token.text t ::
          (p1 ++ Token.openTag ['x'] :: Token.text vx ::
          (p2 ++ Token.openTag ['y'] :: Token.text vy ::
          (p3 ++ Token.openTag ['w', 'i', 'd', 't', 'h'] :: Token.text vw ::
          (p4 ++ Token.openTag ['h', 'e', 'i', 'g', 'h', 't'] :: Token.text vh :: rest)))) ∧
    Token.openTag ['t', 'y', 'p', 'e'] ∉ p0 ∧ Token.openTag ['x'] ∉ p1 ∧
    Token.openTag ['y'] ∉ p2 ∧ Token.openTag ['w', 'i', 'd', 't', 'h'] ∉ p3 ∧
    Token.openTag ['h', 'e', 'i', 'g', 'h', 't'] ∉ p4

/-- The first occurrence of the opening tag `tag` in `st` carries the text `v`,
and `rest` is what follows that text. -/
def readsTag (st : StreamTokenizer) (tag v : List Char) (rest : StreamTokenizer) : Prop :=
  ∃ p : List Token, st = p ++ Token.openTag tag :: Token.text v :: rest ∧
    Token.openTag tag ∉ p

/-- Nothing can be read for `tag` from `st`: the tag does not occur, or its first
occurrence carries no text, or that text does not parse. -/
def failsTag {α : Type} (parse : List Char → Option α) (st : StreamTokenizer)
    (tag : List Char) : Prop :=
  ∀ v rest, readsTag st tag v rest → parse v = none

/-- The tags `x`, `y`, `width`, `height` all occur, in that order, among the
tokens `r`. -/
def rectTagsInOrder (r : List Token) : Prop :=
  List.Sublist [Token.openTag ['x'], Token.openTag ['y'],
    Token.openTag ['w', 'i', 'd', 't', 'h'], Token.openTag ['h', 'e', 'i', 'g', 'h', 't']] r

/-- The stream has a `type` tag, and behind the first one the tags `x`, `y`,
`width`, `height` all occur in that order. -/
def rectTagsAfterType (st : StreamTokenizer) : Prop :=
  ∃ p0 r : List Token, st = p0 ++ Token.openTag ['t', 'y', 'p', 'e'] :: r ∧
    Token.openTag ['t', 'y', 'p', 'e'] ∉ p0 ∧ rectTagsInOrder r

/-- The registry after the five feature types were registered. -/
def sampleRegistry : FeatureRegistry :=
  [⟨.f2v, 0⟩, ⟨.f2h, 1⟩, ⟨.f3v, 2⟩, ⟨.f3h, 3⟩, ⟨.f4q, 4⟩]

/-- The learner of the record in section 6 of the specification: feature "2v",
rectangle (12, 4, 8, 16). -/
def sampleLearner : HaarLearner :=
  ⟨SamplingType.ST_NO_SAMPLING, 0, some ⟨.f2v, 0⟩,
    ⟨⟨12, by decide, by decide⟩, ⟨4, by decide, by decide⟩, ⟨8, by decide, by decide⟩,
      ⟨16, by decide, by decide⟩⟩⟩

end MultiBoost

/-! # Properties -/

namespace nor_utils

/-- Folding `set · v` over a list of indices overwrites exactly the listed entries. -/
theorem foldl_set_apply (v : mask) (l : List (Fin table_size)) (t : Table)
    (j : Fin table_size) :
    (l.foldl (fun rc i => rc.set i v) t) j = if j ∈ l then v else t j := by
  induction l generalizing t with
  | nil => simp
  | cons a l ih =>
    simp only [List.foldl_cons, ih, List.mem_cons, Table.set]
    by_cases h1 : j ∈ l
    · simp [h1]
    · by_cases h2 : j = a <;> simp [h1, h2]

/-- An assignment through a signed index changes the entry with that index, if any. -/
theorem setAt_apply (t : Table) (i : Int) (m : mask) (j : Fin table_size) :
    (t.setAt i m) j = if i = (j.val : Int) then m else t j := by
  have hj : j.val < 256 := j.isLt
  unfold Table.setAt
  split
  · rename_i h
    simp only [Table.set]
    by_cases e : i = (j.val : Int)
    · have : j = ⟨i.toNat, by show i.toNat < 256; omega⟩ := Fin.ext (by simp only; omega)
      rw [if_pos this, if_pos e]
    · have : ¬ j = ⟨i.toNat, by show i.toNat < 256; omega⟩ := by
        intro h2
        have h3 := congrArg Fin.val h2
        simp only at h3
        omega
      rw [if_neg this, if_neg e]
  · rename_i h
    have e : ¬ i = (j.val : Int) := by omega
    rw [if_neg e]

/-- Folding `setAt · v` over the characters of a string. -/
theorem foldl_setAt_apply (v : mask) (l : List PlainChar) (t : Table) (j : Fin table_size) :
    (l.foldl (fun rc c => rc.setAt c.val v) t) j
      = if ∃ c ∈ l, c.val = (j.val : Int) then v else t j := by
  induction l generalizing t with
  | nil => simp
  | cons a l ih =>
    simp only [List.foldl_cons, ih, setAt_apply, List.mem_cons, exists_eq_or_imp]
    by_cases h1 : ∃ c ∈ l, c.val = (j.val : Int)
    · simp [h1]
    · by_cases h2 : a.val = (j.val : Int) <;> simp [h1, h2]

/-- Every entry of the table built by `init`, in closed form. -/
theorem init_apply (space : mask) (raw : Table) (sepChars : List PlainChar)
    (j : Fin table_size) :
    white_spaces.init space raw sepChars j
      = if (j.val : Int) = 10 ∨ ∃ c ∈ sepChars, c.val = (j.val : Int)
        then space else emptyMask := by
  simp only [white_spaces.init, setAt_apply, foldl_setAt_apply, foldl_set_apply,
    List.mem_finRange, if_true, newline]
  by_cases h1 : (10 : Int) = (j.val : Int)
  · simp [h1.symm]
  · have h1b : ¬ (j.val : Int) = 10 := fun e => h1 e.symm
    by_cases h2 : ∃ c ∈ sepChars, c.val = (j.val : Int) <;> simp [h1, h1b, h2]

/-- The table index of a character that is not negative is its value. -/
theorem toIndex_of_nonneg (c : PlainChar) (h : 0 ≤ c.val) : ((c.toIndex).val : Int) = c.val := by
  have := c.hi
  simp only [PlainChar.toIndex]
  omega

/-- For characters with a non-negative value the table is the documented one:
such a character is marked exactly when it is the newline or one of the
non-negative separators. -/
theorem init_marks_nonneg (space : mask) (hspace : space ≠ emptyMask) (raw : Table)
    (sepChars : List PlainChar) (c : PlainChar) (hc : 0 ≤ c.val) :
    white_spaces.init space raw sepChars c.toIndex = space ↔ (c = newline ∨ c ∈ sepChars) := by
  have hval : ∀ d : PlainChar, d.val = c.val → d = c := by
    intro d hd
    cases d; cases c
    simp only at hd
    subst hd
    rfl
  rw [init_apply, toIndex_of_nonneg c hc]
  constructor
  · intro h
    by_cases hcond : c.val = 10 ∨ ∃ d ∈ sepChars, d.val = c.val
    · rcases hcond with h10 | ⟨d, hd, hdv⟩
      · exact Or.inl ((hval newline (by rw [h10]; rfl)).symm)
      · exact Or.inr (hval d hdv ▸ hd)
    · rw [if_neg hcond] at h
      exact absurd h.symm hspace
  · intro h
    have hcond : c.val = 10 ∨ ∃ d ∈ sepChars, d.val = c.val := by
      rcases h with h | h
      · exact Or.inl (by rw [h]; rfl)
      · exact Or.inr ⟨c, h, rfl⟩
    rw [if_pos hcond]

/-- C8, at the failing input: for the separator string "\xE9" the statement
`_rc[*it] = ctype_base::space` is executed with the index -23, so the entry 233
under which the character 0xE9 is looked up stays the empty mask, although the
character occurs in `sepChars` and is not the newline. -/
theorem white_spaces_init_high_char (space : mask) (raw : Table) :
    highChar ∈ [highChar] ∧ highChar ≠ newline ∧ highChar.toIndex.val = 233 ∧
    white_spaces.init space raw [highChar] highChar.toIndex = emptyMask := by
  refine ⟨by simp, by decide, by decide, ?_⟩
  rw [init_apply]
  have h : ¬ (((highChar.toIndex).val : Int) = 10 ∨
      ∃ c ∈ [highChar], c.val = ((highChar.toIndex).val : Int)) := by
    have e : ((highChar.toIndex).val : Int) = 233 := by decide
    rw [e]
    simp [highChar]
  rw [if_neg h]

/-- C5, as stated, fails: the four-argument constructor accepts a negative
width, `Rect(0, 0, -1, 0)`. -/
theorem rect_negative_width :
    ¬ (Rect.mk Short.zero Short.zero ⟨-1, by decide, by decide⟩ Short.zero).nonNegSize := by
  simp [Rect.nonNegSize]

end nor_utils

namespace MultiBoost

open nor_utils

/-- C6: `initOptions` maps the `csample` argument to the sampling policy:
("num", v) gives `ST_NUM` with value v, ("time", v) gives `ST_TIME` with value
v, and without `csample` the learner is left as it was. -/
theorem initOptions_csample (args : Args) (l : HaarLearner) (randSeed : Nat) (v : Int) :
    (args.hasArgument "csample" = true → args.getValueString "csample" 0 = "num" →
      args.getValueInt "csample" 1 = v →
      (l.initOptions args randSeed).1._samplingType = SamplingType.ST_NUM ∧
      (l.initOptions args randSeed).1._samplingVal = v) ∧
    (args.hasArgument "csample" = true → args.getValueString "csample" 0 = "time" →
      args.getValueInt "csample" 1 = v →
      (l.initOptions args randSeed).1._samplingType = SamplingType.ST_TIME ∧
      (l.initOptions args randSeed).1._samplingVal = v) ∧
    (args.hasArgument "csample" = false → (l.initOptions args randSeed).1 = l) := by
  refine ⟨?_, ?_, ?_⟩
  · intro h1 h2 h3
    simp [HaarLearner.initOptions, h1, h2, h3]
  · intro h1 h2 h3
    simp [HaarLearner.initOptions, h1, h2, h3]
  · intro h1
    simp [HaarLearner.initOptions, h1]

/-- C6 on `-csample num 4`. -/
theorem initOptions_csample_witness :
    (freshLearner.initOptions (csampleArgs "num" 4 none) 1).1._samplingType
        = SamplingType.ST_NUM ∧
    (freshLearner.initOptions (csampleArgs "num" 4 none) 1).1._samplingVal = 4 :=
  (initOptions_csample (csampleArgs "num" 4 none) freshLearner 1 4).1 rfl rfl rfl

/-- C10: with `csample` present and a selector that is neither "num" nor "time",
`initOptions` keeps the sampling type, overwrites the sampling value with the
supplied number, and changes no other field of the learner. -/
theorem initOptions_unknown_selector (args : Args) (l : HaarLearner) (randSeed : Nat)
    (hcs : args.hasArgument "csample" = true)
    (hnum : args.getValueString "csample" 0 ≠ "num")
    (htime : args.getValueString "csample" 0 ≠ "time") :
    (l.initOptions args randSeed).1
      = { l with _samplingVal := args.getValueInt "csample" 1 } := by
  simp [HaarLearner.initOptions, hcs, hnum, htime]

/-- C10 on `-csample NUM 4`: the comparison is case-sensitive. -/
theorem initOptions_unknown_selector_witness :
    (freshLearner.initOptions (csampleArgs "NUM" 4 none) 1).1
      = { freshLearner with _samplingVal := 4 } :=
  initOptions_unknown_selector (csampleArgs "NUM" 4 none) freshLearner 1 rfl
    (by decide) (by decide)

end MultiBoost

namespace MultiBoost

open nor_utils

/-! ## Numbers: what is printed is read back -/

theorem digitVal_digitChar (n : Nat) : digitVal (digitChar n) = some (n % 10) := by
  have h : n % 10 < 10 := Nat.mod_lt _ (by decide)
  unfold digitChar
  generalize n % 10 = d at h
  interval_cases d <;> rfl

theorem digitVal_lt {c : Char} {d : Nat} (h : digitVal c = some d) : d < 10 := by
  unfold digitVal at h
  split_ifs at h <;> simp at h <;> omega

theorem digitVal_ne_lt {c : Char} {d : Nat} (h : digitVal c = some d) : c ≠ '<' := by
  rintro rfl
  have h0 : digitVal '<' = none := by decide
  rw [h0] at h
  cases h

theorem digitVal_ne_minus {c : Char} {d : Nat} (h : digitVal c = some d) : c ≠ '-' := by
  rintro rfl
  have h0 : digitVal '-' = none := by decide
  rw [h0] at h
  cases h

theorem natDigits_append (fuel n : Nat) (acc : List Char) :
    natDigits fuel n acc = natDigits fuel n [] ++ acc := by
  induction fuel generalizing n acc with
  | zero => simp [natDigits]
  | succ fuel ih =>
    simp only [natDigits]
    split
    · simp
    · rw [ih (n / 10) (digitChar n :: acc), ih (n / 10) [digitChar n]]
      simp

theorem parseDigits_snoc (s : List Char) (c : Char) (a : Nat) :
    parseDigits (s ++ [c]) a
      = (parseDigits s a).bind (fun m => (digitVal c).map (fun d => m * 10 + d)) := by
  induction s generalizing a with
  | nil =>
    simp only [List.nil_append, parseDigits, Option.some_bind]
    cases digitVal c <;> simp
  | cons b s ih =>
    simp only [List.cons_append, parseDigits]
    cases digitVal b with
    | none => simp
    | some d => simp [ih]

theorem parseDigits_natDigits (n : Nat) : ∀ fuel, n < fuel →
    parseDigits (natDigits fuel n []) 0 = some n := by
  induction n using Nat.strong_induction_on with
  | _ n ih =>
    intro fuel hf
    cases fuel with
    | zero => omega
    | succ fuel =>
      simp only [natDigits]
      split
      · rename_i h0
        simp only [parseDigits, digitVal_digitChar]
        congr 1
        omega
      · rename_i h0
        rw [natDigits_append, parseDigits_snoc, ih (n / 10) (by omega) fuel (by omega),
          digitVal_digitChar]
        simp only [Option.some_bind, Option.map_some']
        congr 1
        omega

theorem natDigits_ne_nil (fuel n : Nat) (acc : List Char) :
    natDigits (fuel + 1) n acc ≠ [] := by
  rw [natDigits_append]
  simp only [natDigits]
  split
  · simp
  · rw [natDigits_append]
    simp

theorem natDigits_digit (fuel n : Nat) :
    ∀ c ∈ natDigits fuel n [], ∃ d, digitVal c = some d := by
  induction fuel generalizing n with
  | zero => simp [natDigits]
  | succ fuel ih =>
    intro c hc
    simp only [natDigits] at hc
    split at hc
    · simp only [List.mem_singleton] at hc
      exact ⟨_, hc ▸ digitVal_digitChar n⟩
    · rw [natDigits_append] at hc
      simp only [List.mem_append, List.mem_singleton] at hc
      rcases hc with hc | hc
      · exact ih _ c hc
      · exact ⟨_, hc ▸ digitVal_digitChar n⟩

theorem parseNat_showNat (n : Nat) : parseNat (showNat n) = some n := by
  unfold parseNat showNat
  split
  · rename_i h
    exact absurd h (natDigits_ne_nil n n [])
  · exact parseDigits_natDigits n (n + 1) (by omega)

theorem parseInt_showInt (v : Int) : parseInt (showInt v) = some v := by
  unfold showInt
  split
  · rename_i hneg
    simp only [parseInt, if_true, parseNat_showNat]
    congr 1
    simp only [Int.ofNat_eq_coe]
    omega
  · rename_i hpos
    unfold parseInt
    split
    · rename_i h
      exact absurd h (natDigits_ne_nil _ _ [])
    · rename_i c ds h
      have hc : c ∈ showNat v.toNat := by rw [h]; simp
      obtain ⟨d, hd⟩ := natDigits_digit _ _ c hc
      rw [if_neg (digitVal_ne_minus hd), ← h, parseNat_showNat]
      simp only [Int.ofNat_eq_coe]
      congr 1
      omega

theorem parseShort_showInt (s : Short) : parseShort (showInt s.val) = some s := by
  unfold parseShort
  rw [parseInt_showInt]
  simp [s.lo, s.hi]

theorem showInt_ne_nil (v : Int) : showInt v ≠ [] := by
  unfold showInt
  split
  · simp
  · exact natDigits_ne_nil _ _ []

theorem lt_not_mem_showInt (v : Int) : '<' ∉ showInt v := by
  unfold showInt
  split
  · intro h
    simp only [List.mem_cons] at h
    rcases h with h | h
    · revert h; decide
    · obtain ⟨d, hd⟩ := natDigits_digit _ _ _ h
      exact digitVal_ne_lt hd rfl
  · intro h
    obtain ⟨d, hd⟩ := natDigits_digit _ _ _ h
    exact digitVal_ne_lt hd rfl

end MultiBoost

namespace MultiBoost

open nor_utils

/-! ## The tokenizer on runs of text -/

theorem tokenizeAux_text_run (s rest acc : List Char) (h : '<' ∉ s) :
    tokenizeAux (s ++ rest) false acc = tokenizeAux rest false (s.reverse ++ acc) := by
  induction s generalizing acc with
  | nil => simp
  | cons c s ih =>
    simp only [List.mem_cons, not_or] at h
    have hc : c ≠ '<' := fun e => h.1 e.symm
    rw [List.cons_append]
    simp only [tokenizeAux, if_neg hc]
    rw [ih _ h.2]
    simp

theorem textToken_of_ne_nil {s : List Char} (h : s ≠ []) : textToken s = [Token.text s] := by
  cases s with
  | nil => exact absurd rfl h
  | cons c s => rfl

theorem lt_not_mem_getTabs (indent : List Char) (h : '<' ∉ indent) (n : Int) :
    '<' ∉ Serialization.getTabs indent n := by
  unfold Serialization.getTabs
  generalize n.toNat = k
  induction k with
  | zero => simp
  | succ k ih => simp [List.replicate_succ, h, ih]

theorem lt_not_mem_shortName (c : FeatureTypeCode) : '<' ∉ c.shortName := by
  cases c <;> decide

theorem shortName_ne_nil (c : FeatureTypeCode) : c.shortName ≠ [] := by
  cases c <;> decide

theorem tokenizeAux_tag_run (s rest acc : List Char) (h : '>' ∉ s) :
    tokenizeAux (s ++ rest) true acc = tokenizeAux rest true (s.reverse ++ acc) := by
  induction s generalizing acc with
  | nil => simp
  | cons c s ih =>
    simp only [List.mem_cons, not_or] at h
    have hc : c ≠ '>' := fun e => h.1 e.symm
    rw [List.cons_append]
    simp only [tokenizeAux, if_neg hc]
    rw [ih _ h.2]
    simp

/-- One tag, with the text in front of it. -/
theorem tokenizeAux_tag (pre name rest acc : List Char) (hpre : '<' ∉ pre)
    (hname : '>' ∉ name) :
    tokenizeAux (pre ++ '<' :: (name ++ '>' :: rest)) false acc
      = textToken (acc.reverse ++ pre) ++ mkTag name :: tokenizeAux rest false [] := by
  rw [tokenizeAux_text_run _ _ _ hpre]
  simp only [tokenizeAux, if_true]
  rw [tokenizeAux_tag_run _ _ _ hname]
  simp only [tokenizeAux, if_true]
  simp

/-- One line written by `standardTag`. -/
theorem tokenizeAux_standardTag (indent name value rest acc : List Char) (n : Int)
    (hindent : '<' ∉ indent) (hname : '>' ∉ name) (hopen : mkTag name = Token.openTag name)
    (hvalue : '<' ∉ value) (hne : value ≠ []) :
    tokenizeAux (Serialization.standardTag indent name value n ++ rest) false acc
      = textToken (acc.reverse ++ Serialization.getTabs indent n) ++
          Token.openTag name :: Token.text value :: Token.closeTag name ::
            tokenizeAux rest false [] := by
  have hT := lt_not_mem_getTabs indent hindent n
  have hname2 : '>' ∉ '/' :: name := by
    simp only [List.mem_cons, not_or]
    exact ⟨by decide, hname⟩
  have e : Serialization.standardTag indent name value n ++ rest
      = Serialization.getTabs indent n ++ '<' :: (name ++ '>' ::
          (value ++ '<' :: (('/' :: name) ++ '>' :: rest))) := by
    simp [Serialization.standardTag]
  rw [e, tokenizeAux_tag _ _ _ _ hT hname, tokenizeAux_tag _ _ _ _ hvalue hname2, hopen]
  simp [textToken_of_ne_nil hne, mkTag]

theorem tokenizeAux_endl_tag (pre name rest : List Char) (hpre : '<' ∉ pre)
    (hname : '>' ∉ name) :
    tokenizeAux (endl ++ (pre ++ '<' :: (name ++ '>' :: rest))) false []
      = Token.text ('\n' :: pre) :: mkTag name :: tokenizeAux rest false [] := by
  have h : '<' ∉ '\n' :: pre := by
    simp only [List.mem_cons, not_or]
    exact ⟨by decide, hpre⟩
  have e : endl ++ (pre ++ '<' :: (name ++ '>' :: rest))
      = ('\n' :: pre) ++ '<' :: (name ++ '>' :: rest) := rfl
  rw [e, tokenizeAux_tag _ _ _ _ h hname]
  simp [textToken]

theorem tokenizeAux_endl_standardTag (indent name value rest : List Char) (n : Int)
    (hindent : '<' ∉ indent) (hname : '>' ∉ name) (hopen : mkTag name = Token.openTag name)
    (hvalue : '<' ∉ value) (hne : value ≠ []) :
    tokenizeAux (endl ++ (Serialization.standardTag indent name value n ++ rest)) false []
      = Token.text ('\n' :: Serialization.getTabs indent n) ::
          Token.openTag name :: Token.text value :: Token.closeTag name ::
            tokenizeAux rest false [] := by
  have e : tokenizeAux (endl ++ (Serialization.standardTag indent name value n ++ rest)) false []
      = tokenizeAux (Serialization.standardTag indent name value n ++ rest) false ['\n'] := by
    simp [endl, tokenizeAux]
  rw [e, tokenizeAux_standardTag indent name value rest ['\n'] n hindent hname hopen hvalue hne]
  simp [textToken]

theorem rect_open_eq (rest : List Char) :
    ['<', 'r', 'e', 'c', 't', '>'] ++ rest = '<' :: (['r', 'e', 'c', 't'] ++ '>' :: rest) := rfl

theorem rect_close_eq (rest : List Char) :
    ['<', '/', 'r', 'e', 'c', 't', '>'] ++ rest
      = '<' :: (['/', 'r', 'e', 'c', 't'] ++ '>' :: rest) := rfl

/-- The tokens of what `save` writes into an empty stream. -/
theorem tokenize_save (indent : List Char) (hindent : '<' ∉ indent) (l : HaarLearner)
    (f : HaarFeature) (hf : l._pSelectedFeature = some f) (numTabs : Int) :
    (l.save indent [] numTabs).map tokenize
      = some (savedTokens indent f l._selectedConfig numTabs) := by
  have hT := lt_not_mem_getTabs indent hindent numTabs
  have hT1 := lt_not_mem_getTabs indent hindent (numTabs + 1)
  have hx := lt_not_mem_showInt l._selectedConfig.x.val
  have hy := lt_not_mem_showInt l._selectedConfig.y.val
  have hw := lt_not_mem_showInt l._selectedConfig.width.val
  have hh := lt_not_mem_showInt l._selectedConfig.height.val
  have hs := lt_not_mem_shortName f.code
  simp only [HaarLearner.save, hf, Option.map_some', Option.some.injEq, tokenize,
    List.append_assoc, List.nil_append, HaarFeature.getShortName]
  simp only [rect_open_eq, rect_close_eq]
  rw [tokenizeAux_standardTag indent ['t', 'y', 'p', 'e'] f.code.shortName _ [] numTabs hindent
      (by decide) rfl hs (shortName_ne_nil _),
    tokenizeAux_endl_tag _ ['r', 'e', 'c', 't'] _ hT (by decide),
    tokenizeAux_endl_standardTag indent ['x'] _ _ (numTabs + 1) hindent (by decide) rfl hx
      (showInt_ne_nil _),
    tokenizeAux_endl_standardTag indent ['y'] _ _ (numTabs + 1) hindent (by decide) rfl hy
      (showInt_ne_nil _),
    tokenizeAux_endl_standardTag indent ['w', 'i', 'd', 't', 'h'] _ _ (numTabs + 1) hindent
      (by decide) rfl hw (showInt_ne_nil _),
    tokenizeAux_endl_standardTag indent ['h', 'e', 'i', 'g', 'h', 't'] _ _ (numTabs + 1) hindent
      (by decide) rfl hh (showInt_ne_nil _),
    tokenizeAux_endl_tag _ ['/', 'r', 'e', 'c', 't'] _ hT (by decide)]
  simp [savedTokens, mkTag, endl, tokenizeAux, textToken, HaarFeature.getShortName]

end MultiBoost

namespace MultiBoost

open nor_utils UnSerialization

/-! ## The forward scan -/

theorem seekSimpleTag_append (tag : List Char) (p rest : List Token)
    (hp : Token.openTag tag ∉ p) :
    seekSimpleTag tag (p ++ Token.openTag tag :: rest) = (true, rest) := by
  induction p with
  | nil => simp [seekSimpleTag]
  | cons a p ih =>
    simp only [List.mem_cons, not_or] at hp
    have ha : a ≠ Token.openTag tag := fun e => hp.1 e.symm
    simp only [List.cons_append, seekSimpleTag, if_neg ha]
    exact ih hp.2

theorem seekSimpleTag_true (tag : List Char) (st r : List Token)
    (h : seekSimpleTag tag st = (true, r)) :
    ∃ p, st = p ++ Token.openTag tag :: r ∧ Token.openTag tag ∉ p := by
  induction st with
  | nil => simp [seekSimpleTag] at h
  | cons a st ih =>
    simp only [seekSimpleTag] at h
    split at h
    · rename_i ha
      simp only [Prod.mk.injEq, true_and] at h
      exact ⟨[], by simp [ha, h], by simp⟩
    · rename_i ha
      obtain ⟨p, hp, hn⟩ := ih h
      refine ⟨a :: p, by simp [hp], ?_⟩
      simp only [List.mem_cons, not_or]
      exact ⟨fun e => ha e.symm, hn⟩

theorem seekSimpleTag_suffix (tag : List Char) (st : List Token) :
    (seekSimpleTag tag st).2 <:+ st := by
  induction st with
  | nil => simp [seekSimpleTag]
  | cons a st ih =>
    simp only [seekSimpleTag]
    split
    · exact List.suffix_cons a st
    · exact ih.trans (List.suffix_cons a st)

theorem seekAndParse_found {α : Type} (parse : List Char → Option α) (tag v : List Char)
    (a : α) (p rest : List Token) (hp : Token.openTag tag ∉ p) (hv : parse v = some a) :
    seekAndParseEnclosedValue parse (p ++ Token.openTag tag :: Token.text v :: rest) tag
      = (Except.ok a, rest) := by
  simp only [seekAndParseEnclosedValue, seekSimpleTag_append tag p _ hp, hv]

theorem seekAndParse_ok {α : Type} (parse : List Char → Option α) (tag : List Char)
    (a : α) (st r : List Token)
    (h : seekAndParseEnclosedValue parse st tag = (Except.ok a, r)) :
    ∃ p v, st = p ++ Token.openTag tag :: Token.text v :: r ∧ Token.openTag tag ∉ p ∧
      parse v = some a := by
  unfold seekAndParseEnclosedValue at h
  split at h
  · simp at h
  · rename_i st1 hs
    obtain ⟨p, hp, hn⟩ := seekSimpleTag_true tag st st1 hs
    split at h
    · rename_i v rest
      split at h
      · rename_i b hb
        simp only [Prod.mk.injEq, Except.ok.injEq] at h
        exact ⟨p, v, by rw [hp, h.2], hn, by rw [hb, h.1]⟩
      · simp at h
    · simp at h

theorem seekAndParse_error {α : Type} (parse : List Char → Option α) (tag : List Char)
    (e : LoadError) (st r : List Token)
    (h : seekAndParseEnclosedValue parse st tag = (Except.error e, r)) :
    e = LoadError.MalformedSerializedFeature := by
  unfold seekAndParseEnclosedValue at h
  split at h
  · simp only [Prod.mk.injEq, Except.error.injEq] at h
    exact h.1.symm
  · split at h
    · split at h
      · simp at h
      · simp only [Prod.mk.injEq, Except.error.injEq] at h
        exact h.1.symm
    · simp only [Prod.mk.injEq, Except.error.injEq] at h
      exact h.1.symm

theorem seekAndParse_suffix {α : Type} (parse : List Char → Option α) (tag : List Char)
    (st : List Token) : (seekAndParseEnclosedValue parse st tag).2 <:+ st := by
  have hs := seekSimpleTag_suffix tag st
  unfold seekAndParseEnclosedValue
  split
  · rename_i st1 h
    rw [h] at hs
    exact hs
  · rename_i st1 h
    rw [h] at hs
    split
    · split
      · exact (List.suffix_cons _ _).trans hs
      · exact (List.suffix_cons _ _).trans hs
    · exact hs

theorem getFeature_error (reg : FeatureRegistry) (s : List Char) (e : LoadError)
    (h : reg.getFeature s = Except.error e) : e = LoadError.UnknownFeatureType := by
  unfold FeatureRegistry.getFeature at h
  split at h
  · simp at h
  · simp only [Except.error.injEq] at h
    exact h.symm

theorem getFeature_unregistered (reg : FeatureRegistry) (s : List Char)
    (h : ∀ f ∈ reg, f.getShortName ≠ s) :
    reg.getFeature s = Except.error LoadError.UnknownFeatureType := by
  unfold FeatureRegistry.getFeature
  have : reg.find? (fun f => decide (f.getShortName = s)) = none := by
    rw [List.find?_eq_none]
    intro f hf
    simpa using h f hf
  rw [this]

end MultiBoost

namespace MultiBoost

open nor_utils UnSerialization

/-! ## `load`, stage by stage -/

/-- The outcome of `load` according to the first statement that fails. -/
theorem load_cases (reg : FeatureRegistry) (l : HaarLearner) (st : StreamTokenizer) :
    (∃ e st1, seekAndParseEnclosedValue parseString st ['t', 'y', 'p', 'e']
          = (Except.error e, st1) ∧
        l.load reg st = ⟨l, st1, some e⟩) ∨
    (∃ t st1, seekAndParseEnclosedValue parseString st ['t', 'y', 'p', 'e']
          = (Except.ok t, st1) ∧
      ((∃ e, reg.getFeature t = Except.error e ∧ l.load reg st = ⟨l, st1, some e⟩) ∨
      (∃ f, reg.getFeature t = Except.ok f ∧
        ((∃ e st2, seekAndParseEnclosedValue parseShort st1 ['x'] = (Except.error e, st2) ∧
            l.load reg st = ⟨{ l with _pSelectedFeature := some f }, st2, some e⟩) ∨
        (∃ x st2, seekAndParseEnclosedValue parseShort st1 ['x'] = (Except.ok x, st2) ∧
          ((∃ e st3, seekAndParseEnclosedValue parseShort st2 ['y'] = (Except.error e, st3) ∧
              l.load reg st =
                ⟨{ l with _pSelectedFeature := some f,
                          _selectedConfig := { l._selectedConfig with x := x } }, st3, some e⟩) ∨
          (∃ y st3, seekAndParseEnclosedValue parseShort st2 ['y'] = (Except.ok y, st3) ∧
            ((∃ e st4, seekAndParseEnclosedValue parseShort st3 ['w', 'i', 'd', 't', 'h']
                  = (Except.error e, st4) ∧
                l.load reg st =
                  ⟨{ l with _pSelectedFeature := some f,
                            _selectedConfig := { l._selectedConfig with x := x, y := y } },
                  st4, some e⟩) ∨
            (∃ w st4, seekAndParseEnclosedValue parseShort st3 ['w', 'i', 'd', 't', 'h']
                  = (Except.ok w, st4) ∧
              ((∃ e st5, seekAndParseEnclosedValue parseShort st4
                    ['h', 'e', 'i', 'g', 'h', 't'] = (Except.error e, st5) ∧
                  l.load reg st =
                    ⟨{ l with _pSelectedFeature := some f,
                              _selectedConfig := { l._selectedConfig with x := x, y := y, width := w } },
                    st5, some e⟩) ∨
              (∃ h st5, seekAndParseEnclosedValue parseShort st4
                    ['h', 'e', 'i', 'g', 'h', 't'] = (Except.ok h, st5) ∧
                  l.load reg st =
                    ⟨{ l with _pSelectedFeature := some f,
                              _selectedConfig := ⟨x, y, w, h⟩ }, st5, none⟩))))))))))) := by
  rcases h1 : seekAndParseEnclosedValue parseString st ['t', 'y', 'p', 'e'] with ⟨e | t, st1⟩
  · exact Or.inl ⟨e, st1, rfl, by simp only [HaarLearner.load, h1]⟩
  refine Or.inr ⟨t, st1, rfl, ?_⟩
  rcases hg : reg.getFeature t with e | f
  · exact Or.inl ⟨e, rfl, by simp only [HaarLearner.load, h1, hg]⟩
  refine Or.inr ⟨f, rfl, ?_⟩
  rcases h2 : seekAndParseEnclosedValue parseShort st1 ['x'] with ⟨e | x, st2⟩
  · exact Or.inl ⟨e, st2, rfl, by simp only [HaarLearner.load, h1, hg, h2]⟩
  refine Or.inr ⟨x, st2, rfl, ?_⟩
  rcases h3 : seekAndParseEnclosedValue parseShort st2 ['y'] with ⟨e | y, st3⟩
  · exact Or.inl ⟨e, st3, rfl, by simp only [HaarLearner.load, h1, hg, h2, h3]⟩
  refine Or.inr ⟨y, st3, rfl, ?_⟩
  rcases h4 : seekAndParseEnclosedValue parseShort st3 ['w', 'i', 'd', 't', 'h']
    with ⟨e | w, st4⟩
  · exact Or.inl ⟨e, st4, rfl, by simp only [HaarLearner.load, h1, hg, h2, h3, h4]⟩
  refine Or.inr ⟨w, st4, rfl, ?_⟩
  rcases h5 : seekAndParseEnclosedValue parseShort st4 ['h', 'e', 'i', 'g', 'h', 't']
    with ⟨e | h, st5⟩
  · exact Or.inl ⟨e, st5, rfl, by simp only [HaarLearner.load, h1, hg, h2, h3, h4, h5]⟩
  · exact Or.inr ⟨h, st5, rfl, by simp only [HaarLearner.load, h1, hg, h2, h3, h4, h5]⟩

end MultiBoost

namespace MultiBoost

open nor_utils UnSerialization

theorem seekAndParse_suffix_of_eq {α : Type} {parse : List Char → Option α} {tag : List Char}
    {st st1 : List Token} {r : Except LoadError α}
    (h : seekAndParseEnclosedValue parse st tag = (r, st1)) : st1 <:+ st := by
  have hs := seekAndParse_suffix parse tag st
  rw [h] at hs
  exact hs

/-- The cursor `load` leaves behind is a suffix of the one it was given. -/
theorem load_suffix (reg : FeatureRegistry) (l : HaarLearner) (st : StreamTokenizer) :
    (l.load reg st).st <:+ st := by
  rcases load_cases reg l st with ⟨e, st1, h1, hl⟩ | ⟨t, st1, h1, hrest⟩
  · rw [hl]; exact seekAndParse_suffix_of_eq h1
  have s1 := seekAndParse_suffix_of_eq h1
  rcases hrest with ⟨e, -, hl⟩ | ⟨f, -, hrest⟩
  · rw [hl]; exact s1
  rcases hrest with ⟨e, st2, h2, hl⟩ | ⟨x, st2, h2, hrest⟩
  · rw [hl]; exact (seekAndParse_suffix_of_eq h2).trans s1
  have s2 := (seekAndParse_suffix_of_eq h2).trans s1
  rcases hrest with ⟨e, st3, h3, hl⟩ | ⟨y, st3, h3, hrest⟩
  · rw [hl]; exact (seekAndParse_suffix_of_eq h3).trans s2
  have s3 := (seekAndParse_suffix_of_eq h3).trans s2
  rcases hrest with ⟨e, st4, h4, hl⟩ | ⟨w, st4, h4, hrest⟩
  · rw [hl]; exact (seekAndParse_suffix_of_eq h4).trans s3
  have s4 := (seekAndParse_suffix_of_eq h4).trans s3
  rcases hrest with ⟨e, st5, h5, hl⟩ | ⟨h, st5, h5, hl⟩
  · rw [hl]; exact (seekAndParse_suffix_of_eq h5).trans s4
  · rw [hl]; exact (seekAndParse_suffix_of_eq h5).trans s4

/-- A stream that reads forward loads, with the values found on the way. -/
theorem load_of_readsForward (reg : FeatureRegistry) (l : HaarLearner) (st rest : StreamTokenizer)
    (t vx vy vw vh : List Char) (f : HaarFeature) (x y w h : Short)
    (hst : readsForward st t vx vy vw vh rest) (hf : reg.getFeature t = Except.ok f)
    (hx : parseShort vx = some x) (hy : parseShort vy = some y)
    (hw : parseShort vw = some w) (hh : parseShort vh = some h) :
    l.load reg st
      = ⟨{ l with _pSelectedFeature := some f, _selectedConfig := ⟨x, y, w, h⟩ }, rest, none⟩ := by
  obtain ⟨p0, p1, p2, p3, p4, rfl, h0, h1, h2, h3, h4⟩ := hst
  simp only [HaarLearner.load, seekAndParse_found parseString _ t t p0 _ h0 rfl, hf,
    seekAndParse_found parseShort _ vx x p1 _ h1 hx,
    seekAndParse_found parseShort _ vy y p2 _ h2 hy,
    seekAndParse_found parseShort _ vw w p3 _ h3 hw,
    seekAndParse_found parseShort _ vh h p4 _ h4 hh]

/-- A successful `load` has read the stream forward. -/
theorem readsForward_of_load (reg : FeatureRegistry) (l : HaarLearner) (st : StreamTokenizer)
    (hok : (l.load reg st).error = none) :
    ∃ t vx vy vw vh f x y w h,
      readsForward st t vx vy vw vh (l.load reg st).st ∧
      reg.getFeature t = Except.ok f ∧ parseShort vx = some x ∧ parseShort vy = some y ∧
      parseShort vw = some w ∧ parseShort vh = some h ∧
      (l.load reg st).learner
        = { l with _pSelectedFeature := some f, _selectedConfig := ⟨x, y, w, h⟩ } := by
  rcases load_cases reg l st with ⟨e, st1, h1, hl⟩ | ⟨t, st1, h1, hrest⟩
  · rw [hl] at hok; cases hok
  rcases hrest with ⟨e, -, hl⟩ | ⟨f, hf, hrest⟩
  · rw [hl] at hok; cases hok
  rcases hrest with ⟨e, st2, h2, hl⟩ | ⟨x, st2, h2, hrest⟩
  · rw [hl] at hok; cases hok
  rcases hrest with ⟨e, st3, h3, hl⟩ | ⟨y, st3, h3, hrest⟩
  · rw [hl] at hok; cases hok
  rcases hrest with ⟨e, st4, h4, hl⟩ | ⟨w, st4, h4, hrest⟩
  · rw [hl] at hok; cases hok
  rcases hrest with ⟨e, st5, h5, hl⟩ | ⟨h, st5, h5, hl⟩
  · rw [hl] at hok; cases hok
  obtain ⟨p0, v0, e0, n0, q0⟩ := seekAndParse_ok _ _ _ _ _ h1
  obtain ⟨p1, vx, e1, n1, q1⟩ := seekAndParse_ok _ _ _ _ _ h2
  obtain ⟨p2, vy, e2, n2, q2⟩ := seekAndParse_ok _ _ _ _ _ h3
  obtain ⟨p3, vw, e3, n3, q3⟩ := seekAndParse_ok _ _ _ _ _ h4
  obtain ⟨p4, vh, e4, n4, q4⟩ := seekAndParse_ok _ _ _ _ _ h5
  simp only [parseString, Option.some.injEq] at q0
  subst q0
  refine ⟨v0, vx, vy, vw, vh, f, x, y, w, h, ?_, hf, q1, q2, q3, q4, by rw [hl]⟩
  rw [hl]
  exact ⟨p0, p1, p2, p3, p4, by rw [e0, e1, e2, e3, e4], n0, n1, n2, n3, n4⟩

/-- A stream that reads forward holds the four rectangle tags in order behind
its first `type` tag. -/
theorem rectTagsInOrder_of_readsForward (p0 r rest : List Token) (t vx vy vw vh : List Char)
    (h0 : Token.openTag ['t', 'y', 'p', 'e'] ∉ p0)
    (h : readsForward (p0 ++ Token.openTag ['t', 'y', 'p', 'e'] :: r) t vx vy vw vh rest) :
    rectTagsInOrder r ∧ ∃ r1, r = Token.text t :: r1 := by
  obtain ⟨q0, p1, p2, p3, p4, e, n0, -⟩ := h
  have s1 := seekSimpleTag_append ['t', 'y', 'p', 'e'] p0 r h0
  rw [e, seekSimpleTag_append _ q0 _ n0] at s1
  simp only [Prod.mk.injEq, true_and] at s1
  refine ⟨?_, _, s1.symm⟩
  rw [← s1]
  unfold rectTagsInOrder
  refine List.Sublist.cons _ ?_
  refine (List.Sublist.cons₂ _ ?_).trans (List.sublist_append_right p1 _)
  refine List.Sublist.cons _ ?_
  refine (List.Sublist.cons₂ _ ?_).trans (List.sublist_append_right p2 _)
  refine List.Sublist.cons _ ?_
  refine (List.Sublist.cons₂ _ ?_).trans (List.sublist_append_right p3 _)
  refine List.Sublist.cons _ ?_
  refine (List.Sublist.cons₂ _ ?_).trans (List.sublist_append_right p4 _)
  exact List.nil_sublist _

/-- The only way `load` fails with `UnknownFeatureType`: the value of the first
`type` tag is not in the registry. -/
theorem load_unknown_inv (reg : FeatureRegistry) (l : HaarLearner) (st : StreamTokenizer)
    (h : (l.load reg st).error = some LoadError.UnknownFeatureType) :
    ∃ p0 t r1, st = p0 ++ Token.openTag ['t', 'y', 'p', 'e'] :: Token.text t :: r1 ∧
      Token.openTag ['t', 'y', 'p', 'e'] ∉ p0 ∧
      reg.getFeature t = Except.error LoadError.UnknownFeatureType := by
  rcases load_cases reg l st with ⟨e, st1, h1, hl⟩ | ⟨t, st1, h1, hrest⟩
  · rw [hl, seekAndParse_error _ _ _ _ _ h1] at h; cases h
  rcases hrest with ⟨e, hg, hl⟩ | ⟨f, hf, hrest⟩
  · obtain ⟨p0, v0, e0, n0, q0⟩ := seekAndParse_ok _ _ _ _ _ h1
    simp only [parseString, Option.some.injEq] at q0
    subst q0
    rw [getFeature_error _ _ _ hg] at hg
    exact ⟨p0, v0, st1, e0, n0, hg⟩
  rcases hrest with ⟨e, st2, h2, hl⟩ | ⟨x, st2, h2, hrest⟩
  · rw [hl, seekAndParse_error _ _ _ _ _ h2] at h; cases h
  rcases hrest with ⟨e, st3, h3, hl⟩ | ⟨y, st3, h3, hrest⟩
  · rw [hl, seekAndParse_error _ _ _ _ _ h3] at h; cases h
  rcases hrest with ⟨e, st4, h4, hl⟩ | ⟨w, st4, h4, hrest⟩
  · rw [hl, seekAndParse_error _ _ _ _ _ h4] at h; cases h
  rcases hrest with ⟨e, st5, h5, hl⟩ | ⟨hh, st5, h5, hl⟩
  · rw [hl, seekAndParse_error _ _ _ _ _ h5] at h; cases h
  · rw [hl] at h; cases h

end MultiBoost

namespace MultiBoost

open nor_utils UnSerialization

/-! ## Reading one tag -/

theorem seekAndParse_of_readsTag {α : Type} (parse : List Char → Option α)
    (st : StreamTokenizer) (tag v : List Char) (rest : StreamTokenizer) (a : α)
    (h : readsTag st tag v rest) (hv : parse v = some a) :
    seekAndParseEnclosedValue parse st tag = (Except.ok a, rest) := by
  obtain ⟨p, rfl, hp⟩ := h
  exact seekAndParse_found parse tag v a p rest hp hv

theorem readsTag_of_seekAndParse {α : Type} (parse : List Char → Option α)
    (st : StreamTokenizer) (tag : List Char) (a : α) (r : StreamTokenizer)
    (h : seekAndParseEnclosedValue parse st tag = (Except.ok a, r)) :
    ∃ v, readsTag st tag v r ∧ parse v = some a := by
  obtain ⟨p, v, e, n, q⟩ := seekAndParse_ok parse tag a st r h
  exact ⟨v, ⟨p, e, n⟩, q⟩

theorem seekAndParse_of_failsTag {α : Type} (parse : List Char → Option α)
    (st : StreamTokenizer) (tag : List Char) (h : failsTag parse st tag) :
    ∃ st1, seekAndParseEnclosedValue parse st tag
      = (Except.error LoadError.MalformedSerializedFeature, st1) := by
  rcases hr : seekAndParseEnclosedValue parse st tag with ⟨e | a, st1⟩
  · exact ⟨st1, by rw [seekAndParse_error parse tag e st st1 hr]⟩
  · obtain ⟨v, hv, q⟩ := readsTag_of_seekAndParse parse st tag a st1 hr
    rw [h v st1 hv] at q
    cases q

theorem failsTag_of_seekAndParse {α : Type} (parse : List Char → Option α)
    (st : StreamTokenizer) (tag : List Char) (e : LoadError) (r : StreamTokenizer)
    (h : seekAndParseEnclosedValue parse st tag = (Except.error e, r)) :
    failsTag parse st tag := by
  intro v rest hv
  cases hp : parse v with
  | none => rfl
  | some a =>
    rw [seekAndParse_of_readsTag parse st tag v rest a hv hp] at h
    simp at h

theorem seek_of_readsTag (st : StreamTokenizer) (tag v : List Char) (rest : StreamTokenizer)
    (h : readsTag st tag v rest) : seekSimpleTag tag st = (true, Token.text v :: rest) := by
  obtain ⟨p, rfl, hp⟩ := h
  exact seekSimpleTag_append tag p _ hp

theorem seek_of_rectTagsAfterType (st : StreamTokenizer) (h : rectTagsAfterType st) :
    ∃ r, seekSimpleTag ['t', 'y', 'p', 'e'] st = (true, r) ∧ rectTagsInOrder r := by
  obtain ⟨p0, r, rfl, hp, hr⟩ := h
  exact ⟨r, seekSimpleTag_append _ p0 r hp, hr⟩

theorem not_readsTag_of_not_mem (st : StreamTokenizer) (tag v : List Char)
    (rest : StreamTokenizer) (h : Token.openTag tag ∉ st) : ¬ readsTag st tag v rest := by
  rintro ⟨p, rfl, -⟩
  exact h (by simp)

theorem failsTag_of_not_mem {α : Type} (parse : List Char → Option α) (st : StreamTokenizer)
    (tag : List Char) (h : Token.openTag tag ∉ st) : failsTag parse st tag :=
  fun v rest hv => absurd hv (not_readsTag_of_not_mem st tag v rest h)

theorem getFeature_error_unregistered (reg : FeatureRegistry) (s : List Char) (e : LoadError)
    (h : reg.getFeature s = Except.error e) : ∀ f ∈ reg, f.getShortName ≠ s := by
  unfold FeatureRegistry.getFeature at h
  split at h
  · simp at h
  · rename_i hnone
    rw [List.find?_eq_none] at hnone
    intro f hf
    simpa using hnone f hf

theorem parseInt_of_parseShort (v : List Char) (s : Short) (h : parseShort v = some s) :
    parseInt v = some s.val := by
  unfold parseShort at h
  split at h
  · rename_i n hn
    split at h
    · simp only [Option.some.injEq] at h
      rw [hn, ← h]
    · cases h
  · cases h

/-! ## `load` on a stream, tag by tag -/

theorem load_type_fails (reg : FeatureRegistry) (l : HaarLearner) (st : StreamTokenizer)
    (h : failsTag parseString st ['t', 'y', 'p', 'e']) :
    (l.load reg st).learner = l ∧
    (l.load reg st).error = some LoadError.MalformedSerializedFeature := by
  obtain ⟨st1, h1⟩ := seekAndParse_of_failsTag parseString st _ h
  simp only [HaarLearner.load, h1, and_self]

theorem load_lookup_fails (reg : FeatureRegistry) (l : HaarLearner) (st st1 : StreamTokenizer)
    (t : List Char) (e : LoadError) (h : readsTag st ['t', 'y', 'p', 'e'] t st1)
    (hg : reg.getFeature t = Except.error e) :
    l.load reg st = ⟨l, st1, some LoadError.UnknownFeatureType⟩ := by
  rw [getFeature_error reg t e hg] at hg
  simp only [HaarLearner.load, seekAndParse_of_readsTag parseString st _ t st1 t h rfl, hg]

theorem load_x_fails (reg : FeatureRegistry) (l : HaarLearner) (st st1 : StreamTokenizer)
    (t : List Char) (f : HaarFeature) (h : readsTag st ['t', 'y', 'p', 'e'] t st1)
    (hg : reg.getFeature t = Except.ok f) (hx : failsTag parseShort st1 ['x']) :
    (l.load reg st).learner = { l with _pSelectedFeature := some f } ∧
    (l.load reg st).error = some LoadError.MalformedSerializedFeature := by
  obtain ⟨st2, h2⟩ := seekAndParse_of_failsTag parseShort st1 _ hx
  simp only [HaarLearner.load, seekAndParse_of_readsTag parseString st _ t st1 t h rfl, hg, h2,
    and_self]

theorem load_y_fails (reg : FeatureRegistry) (l : HaarLearner) (st st1 st2 : StreamTokenizer)
    (t vx : List Char) (f : HaarFeature) (x : Short)
    (h : readsTag st ['t', 'y', 'p', 'e'] t st1) (hg : reg.getFeature t = Except.ok f)
    (hx : readsTag st1 ['x'] vx st2) (px : parseShort vx = some x)
    (hy : failsTag parseShort st2 ['y']) :
    (l.load reg st).learner
      = { l with _pSelectedFeature := some f,
                 _selectedConfig := { l._selectedConfig with x := x } } ∧
    (l.load reg st).error = some LoadError.MalformedSerializedFeature := by
  obtain ⟨st3, h3⟩ := seekAndParse_of_failsTag parseShort st2 _ hy
  simp only [HaarLearner.load, seekAndParse_of_readsTag parseString st _ t st1 t h rfl, hg,
    seekAndParse_of_readsTag parseShort st1 _ vx st2 x hx px, h3, and_self]

theorem load_width_fails (reg : FeatureRegistry) (l : HaarLearner)
    (st st1 st2 st3 : StreamTokenizer) (t vx vy : List Char) (f : HaarFeature) (x y : Short)
    (h : readsTag st ['t', 'y', 'p', 'e'] t st1) (hg : reg.getFeature t = Except.ok f)
    (hx : readsTag st1 ['x'] vx st2) (px : parseShort vx = some x)
    (hy : readsTag st2 ['y'] vy st3) (py : parseShort vy = some y)
    (hw : failsTag parseShort st3 ['w', 'i', 'd', 't', 'h']) :
    (l.load reg st).learner
      = { l with _pSelectedFeature := some f,
                 _selectedConfig := { l._selectedConfig with x := x, y := y } } ∧
    (l.load reg st).error = some LoadError.MalformedSerializedFeature := by
  obtain ⟨st4, h4⟩ := seekAndParse_of_failsTag parseShort st3 _ hw
  simp only [HaarLearner.load, seekAndParse_of_readsTag parseString st _ t st1 t h rfl, hg,
    seekAndParse_of_readsTag parseShort st1 _ vx st2 x hx px,
    seekAndParse_of_readsTag parseShort st2 _ vy st3 y hy py, h4, and_self]

theorem load_height_fails (reg : FeatureRegistry) (l : HaarLearner)
    (st st1 st2 st3 st4 : StreamTokenizer) (t vx vy vw : List Char) (f : HaarFeature)
    (x y w : Short)
    (h : readsTag st ['t', 'y', 'p', 'e'] t st1) (hg : reg.getFeature t = Except.ok f)
    (hx : readsTag st1 ['x'] vx st2) (px : parseShort vx = some x)
    (hy : readsTag st2 ['y'] vy st3) (py : parseShort vy = some y)
    (hw : readsTag st3 ['w', 'i', 'd', 't', 'h'] vw st4) (pw : parseShort vw = some w)
    (hh : failsTag parseShort st4 ['h', 'e', 'i', 'g', 'h', 't']) :
    (l.load reg st).learner
      = { l with _pSelectedFeature := some f,
                 _selectedConfig := { l._selectedConfig with x := x, y := y, width := w } } ∧
    (l.load reg st).error = some LoadError.MalformedSerializedFeature := by
  obtain ⟨st5, h5⟩ := seekAndParse_of_failsTag parseShort st4 _ hh
  simp only [HaarLearner.load, seekAndParse_of_readsTag parseString st _ t st1 t h rfl, hg,
    seekAndParse_of_readsTag parseShort st1 _ vx st2 x hx px,
    seekAndParse_of_readsTag parseShort st2 _ vy st3 y hy py,
    seekAndParse_of_readsTag parseShort st3 _ vw st4 w hw pw, h5, and_self]

theorem load_height_reads (reg : FeatureRegistry) (l : HaarLearner)
    (st st1 st2 st3 st4 st5 : StreamTokenizer) (t vx vy vw vh : List Char) (f : HaarFeature)
    (x y w hgt : Short)
    (h : readsTag st ['t', 'y', 'p', 'e'] t st1) (hg : reg.getFeature t = Except.ok f)
    (hx : readsTag st1 ['x'] vx st2) (px : parseShort vx = some x)
    (hy : readsTag st2 ['y'] vy st3) (py : parseShort vy = some y)
    (hw : readsTag st3 ['w', 'i', 'd', 't', 'h'] vw st4) (pw : parseShort vw = some w)
    (hh : readsTag st4 ['h', 'e', 'i', 'g', 'h', 't'] vh st5) (ph : parseShort vh = some hgt) :
    l.load reg st
      = ⟨{ l with _pSelectedFeature := some f, _selectedConfig := ⟨x, y, w, hgt⟩ },
          st5, none⟩ := by
  simp only [HaarLearner.load, seekAndParse_of_readsTag parseString st _ t st1 t h rfl, hg,
    seekAndParse_of_readsTag parseShort st1 _ vx st2 x hx px,
    seekAndParse_of_readsTag parseShort st2 _ vy st3 y hy py,
    seekAndParse_of_readsTag parseShort st3 _ vw st4 w hw pw,
    seekAndParse_of_readsTag parseShort st4 _ vh st5 hgt hh ph]

/-- Whatever happens behind it, a type that is read and resolved is stored. -/
theorem load_takes_type (reg : FeatureRegistry) (l : HaarLearner) (st st1 : StreamTokenizer)
    (t : List Char) (f : HaarFeature) (h : readsTag st ['t', 'y', 'p', 'e'] t st1)
    (hg : reg.getFeature t = Except.ok f) :
    (l.load reg st).learner._pSelectedFeature = some f := by
  simp only [HaarLearner.load, seekAndParse_of_readsTag parseString st _ t st1 t h rfl, hg]
  repeat' split
  all_goals rfl

theorem load_takes_x (reg : FeatureRegistry) (l : HaarLearner) (st st1 st2 : StreamTokenizer)
    (t vx : List Char) (f : HaarFeature) (x : Short)
    (h : readsTag st ['t', 'y', 'p', 'e'] t st1) (hg : reg.getFeature t = Except.ok f)
    (hx : readsTag st1 ['x'] vx st2) (px : parseShort vx = some x) :
    (l.load reg st).learner._selectedConfig.x = x := by
  simp only [HaarLearner.load, seekAndParse_of_readsTag parseString st _ t st1 t h rfl, hg,
    seekAndParse_of_readsTag parseShort st1 _ vx st2 x hx px]
  repeat' split
  all_goals rfl

theorem load_takes_y (reg : FeatureRegistry) (l : HaarLearner)
    (st st1 st2 st3 : StreamTokenizer) (t vx vy : List Char) (f : HaarFeature) (x y : Short)
    (h : readsTag st ['t', 'y', 'p', 'e'] t st1) (hg : reg.getFeature t = Except.ok f)
    (hx : readsTag st1 ['x'] vx st2) (px : parseShort vx = some x)
    (hy : readsTag st2 ['y'] vy st3) (py : parseShort vy = some y) :
    (l.load reg st).learner._selectedConfig.y = y := by
  simp only [HaarLearner.load, seekAndParse_of_readsTag parseString st _ t st1 t h rfl, hg,
    seekAndParse_of_readsTag parseShort st1 _ vx st2 x hx px,
    seekAndParse_of_readsTag parseShort st2 _ vy st3 y hy py]
  repeat' split
  all_goals rfl

theorem load_takes_width (reg : FeatureRegistry) (l : HaarLearner)
    (st st1 st2 st3 st4 : StreamTokenizer) (t vx vy vw : List Char) (f : HaarFeature)
    (x y w : Short)
    (h : readsTag st ['t', 'y', 'p', 'e'] t st1) (hg : reg.getFeature t = Except.ok f)
    (hx : readsTag st1 ['x'] vx st2) (px : parseShort vx = some x)
    (hy : readsTag st2 ['y'] vy st3) (py : parseShort vy = some y)
    (hw : readsTag st3 ['w', 'i', 'd', 't', 'h'] vw st4) (pw : parseShort vw = some w) :
    (l.load reg st).learner._selectedConfig.width = w := by
  simp only [HaarLearner.load, seekAndParse_of_readsTag parseString st _ t st1 t h rfl, hg,
    seekAndParse_of_readsTag parseShort st1 _ vx st2 x hx px,
    seekAndParse_of_readsTag parseShort st2 _ vy st3 y hy py,
    seekAndParse_of_readsTag parseShort st3 _ vw st4 w hw pw]
  repeat' split
  all_goals rfl

end MultiBoost

namespace MultiBoost

open nor_utils UnSerialization

/-! ## The serialised record -/

theorem openTag_not_mem_textToken (tag s : List Char) : Token.openTag tag ∉ textToken s := by
  cases s <;> simp [textToken]

/-- The record written by `save` reads forward. -/
theorem readsForward_savedTokens (indent : List Char) (f : HaarFeature) (r : Rect)
    (numTabs : Int) :
    readsForward (savedTokens indent f r numTabs) f.getShortName (showInt r.x.val)
      (showInt r.y.val) (showInt r.width.val) (showInt r.height.val)
      [Token.closeTag ['h', 'e', 'i', 'g', 'h', 't'],
        Token.text ('\n' :: Serialization.getTabs indent numTabs),
        Token.closeTag ['r', 'e', 'c', 't'], Token.text ['\n']] := by
  refine ⟨textToken (Serialization.getTabs indent numTabs),
    [Token.closeTag ['t', 'y', 'p', 'e'],
      Token.text ('\n' :: Serialization.getTabs indent numTabs),
      Token.openTag ['r', 'e', 'c', 't'],
      Token.text ('\n' :: Serialization.getTabs indent (numTabs + 1))],
    [Token.closeTag ['x'], Token.text ('\n' :: Serialization.getTabs indent (numTabs + 1))],
    [Token.closeTag ['y'], Token.text ('\n' :: Serialization.getTabs indent (numTabs + 1))],
    [Token.closeTag ['w', 'i', 'd', 't', 'h'],
      Token.text ('\n' :: Serialization.getTabs indent (numTabs + 1))],
    ?_, openTag_not_mem_textToken _ _, ?_, ?_, ?_, ?_⟩
  · simp [savedTokens]
  all_goals simp

/-- C1: what `save` writes loads back: the text written at any depth for a
learner whose selected feature has the registered type `t` and whose rectangle
is `r` loads without failure, the loaded rectangle is `r` and the loaded
feature is the registry entry of `t`. -/
theorem save_load_round_trip (indent : List Char) (hindent : '<' ∉ indent)
    (reg : FeatureRegistry) (t : FeatureTypeCode) (f g : HaarFeature) (hft : f.code = t)
    (hg : reg.getFeature t.shortName = Except.ok g) (r : Rect) (l : HaarLearner)
    (hl : l._pSelectedFeature = some f) (hr : l._selectedConfig = r) (numTabs : Int)
    (l0 : HaarLearner) :
    ∃ text, l.save indent [] numTabs = some text ∧
      (l0.load reg (tokenize text)).error = none ∧
      (l0.load reg (tokenize text)).learner._selectedConfig = r ∧
      (l0.load reg (tokenize text)).learner._pSelectedFeature = some g := by
  have htok := tokenize_save indent hindent l f hl numTabs
  cases hs : l.save indent [] numTabs with
  | none => rw [hs] at htok; cases htok
  | some text =>
    rw [hs] at htok
    simp only [Option.map_some', Option.some.injEq] at htok
    have hgf : reg.getFeature f.getShortName = Except.ok g := by
      rw [HaarFeature.getShortName, hft]; exact hg
    have hload := load_of_readsForward reg l0 _ _ _ _ _ _ _ g _ _ _ _
      (readsForward_savedTokens indent f l._selectedConfig numTabs) hgf
      (parseShort_showInt _) (parseShort_showInt _) (parseShort_showInt _)
      (parseShort_showInt _)
    refine ⟨text, rfl, ?_, ?_, ?_⟩ <;> rw [htok, hload]
    exact hr

/-- C1 on the record of section 6, written one level deep with tabs. -/
theorem save_load_round_trip_witness :
    ∃ text, sampleLearner.save ['\t'] [] 1 = some text ∧
      (freshLearner.load sampleRegistry (tokenize text)).error = none ∧
      (freshLearner.load sampleRegistry (tokenize text)).learner._selectedConfig
        = sampleLearner._selectedConfig ∧
      (freshLearner.load sampleRegistry (tokenize text)).learner._pSelectedFeature
        = some ⟨FeatureTypeCode.f2v, 0⟩ :=
  save_load_round_trip ['\t'] (by decide) sampleRegistry FeatureTypeCode.f2v
    ⟨FeatureTypeCode.f2v, 0⟩ ⟨FeatureTypeCode.f2v, 0⟩ rfl rfl _ sampleLearner rfl rfl 1
    freshLearner

/-- C2: `save` appends exactly seven lines: the `type` tag with the short name at
depth `numTabs`, `<rect>` at depth `numTabs`, the tags `x`, `y`, `width`,
`height` with the four fields at depth `numTabs + 1`, and `</rect>` at depth
`numTabs`; for "2v" and (12, 4, 8, 16) at depth 0, with the two-blank
indentation unit, this is the record of section 6. -/
theorem save_writes_seven_lines :
    (∀ (indent : List Char) (l : HaarLearner) (f : HaarFeature)
        (outputStream : List Char) (numTabs : Int), l._pSelectedFeature = some f →
      l.save indent outputStream numTabs = some (outputStream ++ (List.map (· ++ ['\n'])
        [ Serialization.getTabs indent numTabs ++ "<type>".toList ++ f.getShortName
            ++ "</type>".toList,
          Serialization.getTabs indent numTabs ++ "<rect>".toList,
          Serialization.getTabs indent (numTabs + 1) ++ "<x>".toList
            ++ showInt l._selectedConfig.x.val ++ "</x>".toList,
          Serialization.getTabs indent (numTabs + 1) ++ "<y>".toList
            ++ showInt l._selectedConfig.y.val ++ "</y>".toList,
          Serialization.getTabs indent (numTabs + 1) ++ "<width>".toList
            ++ showInt l._selectedConfig.width.val ++ "</width>".toList,
          Serialization.getTabs indent (numTabs + 1) ++ "<height>".toList
            ++ showInt l._selectedConfig.height.val ++ "</height>".toList,
          Serialization.getTabs indent numTabs ++ "</rect>".toList ]).flatten)) ∧
    (sampleLearner.save [' ', ' '] [] 0).map String.mk = some
      "<type>2v</type>\n<rect>\n  <x>12</x>\n  <y>4</y>\n  <width>8</width>\n  <height>16</height>\n</rect>\n" := by
  refine ⟨?_, by decide⟩
  intro indent l f outputStream numTabs hf
  have e1 : "<type>".toList = ['<', 't', 'y', 'p', 'e', '>'] := rfl
  have e2 : "</type>".toList = ['<', '/', 't', 'y', 'p', 'e', '>'] := rfl
  have e3 : "<rect>".toList = ['<', 'r', 'e', 'c', 't', '>'] := rfl
  have e4 : "</rect>".toList = ['<', '/', 'r', 'e', 'c', 't', '>'] := rfl
  have e5 : "<x>".toList = ['<', 'x', '>'] := rfl
  have e6 : "</x>".toList = ['<', '/', 'x', '>'] := rfl
  have e7 : "<y>".toList = ['<', 'y', '>'] := rfl
  have e8 : "</y>".toList = ['<', '/', 'y', '>'] := rfl
  have e9 : "<width>".toList = ['<', 'w', 'i', 'd', 't', 'h', '>'] := rfl
  have e10 : "</width>".toList = ['<', '/', 'w', 'i', 'd', 't', 'h', '>'] := rfl
  have e11 : "<height>".toList = ['<', 'h', 'e', 'i', 'g', 'h', 't', '>'] := rfl
  have e12 : "</height>".toList = ['<', '/', 'h', 'e', 'i', 'g', 'h', 't', '>'] := rfl
  simp only [HaarLearner.save, hf, Serialization.standardTag, endl, e1, e2, e3, e4, e5, e6, e7,
    e8, e9, e10, e11, e12, List.map_cons, List.map_nil, List.flatten_cons, List.flatten_nil,
    List.append_assoc, List.cons_append, List.nil_append, List.append_nil]

/-- C2 on the record of section 6 written one level deep with tabs behind a
header line. -/
theorem save_writes_seven_lines_witness :
    sampleLearner.save ['\t'] "<weakLearner>\n".toList 1
      = some "<weakLearner>\n\t<type>2v</type>\n\t<rect>\n\t\t<x>12</x>\n\t\t<y>4</y>\n\t\t<width>8</width>\n\t\t<height>16</height>\n\t</rect>\n".toList :=
  (save_writes_seven_lines.1 ['\t'] sampleLearner ⟨FeatureTypeCode.f2v, 0⟩
    "<weakLearner>\n".toList 1 rfl).trans (by decide)

end MultiBoost

namespace MultiBoost

open nor_utils UnSerialization

/-! ## Failures of `load` -/

/-- C3, as stated, fails: in the stream `<type>9z</type>` the `x` tag is missing
entirely, and `load` fails with `UnknownFeatureType`, not with
`MalformedSerializedFeature`. -/
theorem load_missing_rect_unknown_type :
    tokenize "<type>9z</type>".toList
      = [] ++ Token.openTag ['t', 'y', 'p', 'e'] ::
          [Token.text ['9', 'z'], Token.closeTag ['t', 'y', 'p', 'e']] ∧
    ¬ rectTagsInOrder [Token.text ['9', 'z'], Token.closeTag ['t', 'y', 'p', 'e']] ∧
    (freshLearner.load sampleRegistry (tokenize "<type>9z</type>".toList)).error
      = some LoadError.UnknownFeatureType ∧
    (freshLearner.load sampleRegistry (tokenize "<type>9z</type>".toList)).error
      ≠ some LoadError.MalformedSerializedFeature := by
  unfold rectTagsInOrder
  decide

/-- C3, amended: when `x`, `y`, `width`, `height` do not all occur in that order
behind the first `type` tag (or the stream has no `type` tag at all), `load`
fails.  The failure is `UnknownFeatureType` exactly when the first `type` tag
carries a code that was never registered, and `MalformedSerializedFeature`
otherwise, in particular whenever the code carried by the `type` tag is
registered. -/
theorem load_misordered_fails (reg : FeatureRegistry) (l : HaarLearner) (st : StreamTokenizer)
    (h : ¬ rectTagsAfterType st) :
    ((l.load reg st).error = some LoadError.MalformedSerializedFeature ∨
      (l.load reg st).error = some LoadError.UnknownFeatureType) ∧
    ((l.load reg st).error = some LoadError.UnknownFeatureType ↔
      ∃ t st1, readsTag st ['t', 'y', 'p', 'e'] t st1 ∧ ∀ f ∈ reg, f.getShortName ≠ t) ∧
    ((∀ t st1, readsTag st ['t', 'y', 'p', 'e'] t st1 → ∃ f, reg.getFeature t = Except.ok f) →
      (l.load reg st).error = some LoadError.MalformedSerializedFeature) := by
  have hne : (l.load reg st).error ≠ none := by
    intro hok
    obtain ⟨t, vx, vy, vw, vh, -, -, -, -, -, hfw, -⟩ := readsForward_of_load reg l st hok
    obtain ⟨q0, p1, p2, p3, p4, e, n0, n1, n2, n3, n4⟩ := hfw
    refine h ⟨q0, _, e, n0, ?_⟩
    exact (rectTagsInOrder_of_readsForward q0 _ _ t vx vy vw vh n0
      ⟨q0, p1, p2, p3, p4, rfl, n0, n1, n2, n3, n4⟩).1
  have hor : (l.load reg st).error = some LoadError.MalformedSerializedFeature ∨
      (l.load reg st).error = some LoadError.UnknownFeatureType := by
    cases he : (l.load reg st).error with
    | none => exact absurd he hne
    | some e =>
      cases e with
      | MalformedSerializedFeature => exact Or.inl rfl
      | UnknownFeatureType => exact Or.inr rfl
  have hiff : (l.load reg st).error = some LoadError.UnknownFeatureType ↔
      ∃ t st1, readsTag st ['t', 'y', 'p', 'e'] t st1 ∧ ∀ f ∈ reg, f.getShortName ≠ t := by
    constructor
    · intro he
      obtain ⟨p0, t, r1, e1, n1, hun⟩ := load_unknown_inv reg l st he
      exact ⟨t, r1, ⟨p0, e1, n1⟩, getFeature_error_unregistered reg t _ hun⟩
    · rintro ⟨t, st1, hr, hun⟩
      rw [load_lookup_fails reg l st st1 t _ hr (getFeature_unregistered reg t hun)]
  refine ⟨hor, hiff, ?_⟩
  intro hreg
  rcases hor with hm | hu
  · exact hm
  · obtain ⟨t, st1, hr, hun⟩ := hiff.1 hu
    obtain ⟨f, hf⟩ := hreg t st1 hr
    rw [getFeature_unregistered reg t hun] at hf
    cases hf

/-- C3, amended, on the stream `<type>2v</type><y>4</y><x>12</x>`: the tags are
out of order, the code "2v" is registered, and the failure is
`MalformedSerializedFeature`. -/
theorem load_misordered_fails_witness :
    (freshLearner.load sampleRegistry
        (tokenize "<type>2v</type><y>4</y><x>12</x>".toList)).error
      = some LoadError.MalformedSerializedFeature :=
  (load_misordered_fails sampleRegistry freshLearner
    (tokenize "<type>2v</type><y>4</y><x>12</x>".toList)
    (by
      intro hc
      obtain ⟨r, hs, hr⟩ := seek_of_rectTagsAfterType _ hc
      have hd : seekSimpleTag ['t', 'y', 'p', 'e']
          (tokenize "<type>2v</type><y>4</y><x>12</x>".toList)
          = (true, tokenize "2v</type><y>4</y><x>12</x>".toList) := by decide
      rw [hd] at hs
      simp only [Prod.mk.injEq, true_and] at hs
      subst hs
      revert hr
      unfold rectTagsInOrder
      decide)).2.2
    (by
      intro t st1 hr
      have hs := seek_of_readsTag _ _ _ _ hr
      have hd : seekSimpleTag ['t', 'y', 'p', 'e']
          (tokenize "<type>2v</type><y>4</y><x>12</x>".toList)
          = (true, Token.text ['2', 'v'] :: tokenize "</type><y>4</y><x>12</x>".toList) := by
        decide
      rw [hd] at hs
      simp only [Prod.mk.injEq, true_and, List.cons.injEq, Token.text.injEq] at hs
      exact ⟨⟨FeatureTypeCode.f2v, 0⟩, by rw [← hs.1]; rfl⟩)

/-- C4: when the first `type` tag carries a code that was never registered,
`getFeature` fails and `load` fails with `UnknownFeatureType`, leaving the
learner as it was. -/
theorem load_unknown_type (reg : FeatureRegistry) (l : HaarLearner) (p0 r1 : List Token)
    (t : List Char) (h0 : Token.openTag ['t', 'y', 'p', 'e'] ∉ p0)
    (hun : ∀ f ∈ reg, f.getShortName ≠ t) :
    reg.getFeature t = Except.error LoadError.UnknownFeatureType ∧
    (l.load reg (p0 ++ Token.openTag ['t', 'y', 'p', 'e'] :: Token.text t :: r1)).error
      = some LoadError.UnknownFeatureType ∧
    (l.load reg (p0 ++ Token.openTag ['t', 'y', 'p', 'e'] :: Token.text t :: r1)).learner
      = l := by
  refine ⟨getFeature_unregistered reg t hun, ?_, ?_⟩ <;>
    simp only [HaarLearner.load, seekAndParse_found parseString _ t t p0 _ h0 rfl,
      getFeature_unregistered reg t hun]

/-- C4 on the code "9z" in front of a well-formed rectangle. -/
theorem load_unknown_type_witness :
    sampleRegistry.getFeature ['9', 'z'] = Except.error LoadError.UnknownFeatureType ∧
    (freshLearner.load sampleRegistry ([Token.text ['\n']] ++
      Token.openTag ['t', 'y', 'p', 'e'] :: Token.text ['9', 'z'] ::
        tokenize "</type><rect><x>1</x><y>2</y><width>3</width><height>4</height></rect>".toList)).error
      = some LoadError.UnknownFeatureType ∧
    (freshLearner.load sampleRegistry ([Token.text ['\n']] ++
      Token.openTag ['t', 'y', 'p', 'e'] :: Token.text ['9', 'z'] ::
        tokenize "</type><rect><x>1</x><y>2</y><width>3</width><height>4</height></rect>".toList)).learner
      = freshLearner :=
  load_unknown_type sampleRegistry freshLearner [Token.text ['\n']] _ ['9', 'z'] (by decide)
    (by decide)

/-- C5, amended: every rectangle has its four fields in the 16-bit signed range.
`Rect()` sets the four fields to zero; `Rect(x, y, width, height)` stores its
four arguments as they are; a successful `load` stores the four integers
parsed from the values of the `x`, `y`, `width` and `height` tags it read,
each of them in the 16-bit signed range, whatever its sign: a width of -3
loads as -3. -/
theorem rect_fields_in_short_range :
    (Rect.default.x.val = 0 ∧ Rect.default.y.val = 0 ∧ Rect.default.width.val = 0 ∧
      Rect.default.height.val = 0 ∧ Rect.default.inShortRange ∧ Rect.default.nonNegSize) ∧
    (∀ x y width height : Short,
      (Rect.mk x y width height).x = x ∧ (Rect.mk x y width height).y = y ∧
      (Rect.mk x y width height).width = width ∧
      (Rect.mk x y width height).height = height ∧
      (Rect.mk x y width height).inShortRange) ∧
    (∀ (reg : FeatureRegistry) (l : HaarLearner) (st : StreamTokenizer),
      (l.load reg st).error = none →
      ∃ t vx vy vw vh, readsForward st t vx vy vw vh (l.load reg st).st ∧
        parseInt vx = some (l.load reg st).learner._selectedConfig.x.val ∧
        parseInt vy = some (l.load reg st).learner._selectedConfig.y.val ∧
        parseInt vw = some (l.load reg st).learner._selectedConfig.width.val ∧
        parseInt vh = some (l.load reg st).learner._selectedConfig.height.val ∧
        (l.load reg st).learner._selectedConfig.inShortRange) ∧
    ((freshLearner.load sampleRegistry (tokenize
        "<type>2v</type><x>1</x><y>2</y><width>-3</width><height>4</height>".toList)).error
        = none ∧
      (freshLearner.load sampleRegistry (tokenize
        "<type>2v</type><x>1</x><y>2</y><width>-3</width><height>4</height>".toList)
        ).learner._selectedConfig.width.val = -3) := by
  have hall : ∀ r : Rect, r.inShortRange := fun r =>
    ⟨⟨r.x.lo, r.x.hi⟩, ⟨r.y.lo, r.y.hi⟩, ⟨r.width.lo, r.width.hi⟩, ⟨r.height.lo, r.height.hi⟩⟩
  refine ⟨⟨rfl, rfl, rfl, rfl, hall _, ?_⟩, fun x y w h => ⟨rfl, rfl, rfl, rfl, hall _⟩, ?_,
    by decide⟩
  · simp [Rect.nonNegSize, Rect.default, Short.zero]
  · intro reg l st hok
    obtain ⟨t, vx, vy, vw, vh, f, x, y, w, h, hfw, -, px, py, pw, ph, hl⟩ :=
      readsForward_of_load reg l st hok
    refine ⟨t, vx, vy, vw, vh, hfw, ?_, ?_, ?_, ?_, hall _⟩ <;> rw [hl]
    · exact parseInt_of_parseShort vx x px
    · exact parseInt_of_parseShort vy y py
    · exact parseInt_of_parseShort vw w pw
    · exact parseInt_of_parseShort vh h ph

/-- C5, amended, on the stream
`<type>2v</type><x>1</x><y>2</y><width>-3</width><height>4</height>`: the load
succeeds and the stored fields are the integers parsed from the stream. -/
theorem rect_fields_in_short_range_witness :
    ∃ t vx vy vw vh, readsForward (tokenize
        "<type>2v</type><x>1</x><y>2</y><width>-3</width><height>4</height>".toList)
        t vx vy vw vh (freshLearner.load sampleRegistry (tokenize
          "<type>2v</type><x>1</x><y>2</y><width>-3</width><height>4</height>".toList)).st ∧
      parseInt vx = some (freshLearner.load sampleRegistry (tokenize
        "<type>2v</type><x>1</x><y>2</y><width>-3</width><height>4</height>".toList)
        ).learner._selectedConfig.x.val ∧
      parseInt vy = some (freshLearner.load sampleRegistry (tokenize
        "<type>2v</type><x>1</x><y>2</y><width>-3</width><height>4</height>".toList)
        ).learner._selectedConfig.y.val ∧
      parseInt vw = some (freshLearner.load sampleRegistry (tokenize
        "<type>2v</type><x>1</x><y>2</y><width>-3</width><height>4</height>".toList)
        ).learner._selectedConfig.width.val ∧
      parseInt vh = some (freshLearner.load sampleRegistry (tokenize
        "<type>2v</type><x>1</x><y>2</y><width>-3</width><height>4</height>".toList)
        ).learner._selectedConfig.height.val ∧
      (freshLearner.load sampleRegistry (tokenize
        "<type>2v</type><x>1</x><y>2</y><width>-3</width><height>4</height>".toList)
        ).learner._selectedConfig.inShortRange :=
  rect_fields_in_short_range.2.2.1 sampleRegistry freshLearner (tokenize
    "<type>2v</type><x>1</x><y>2</y><width>-3</width><height>4</height>".toList) (by decide)

/-- C7: `load` is forward-only, on every stream.  The cursor it leaves is a
suffix of the one it was given.  Whatever follows, the value of the first
`type` tag, once resolved, is the stored feature; the value of the first `x`
tag behind it is the stored `x`; the value of the first `y` tag behind that is
the stored `y`; likewise `width`; and when `height` is read as well the load
succeeds with the cursor behind its value.  A stream that reads forward loads
with exactly those values, and every successful load has read the stream in
this way. -/
theorem load_forward_only (reg : FeatureRegistry) (l : HaarLearner) (st : StreamTokenizer) :
    (l.load reg st).st <:+ st ∧
    (∀ (t vx vy vw vh : List Char) (rest : StreamTokenizer) (f : HaarFeature)
        (x y w h : Short),
      readsForward st t vx vy vw vh rest → reg.getFeature t = Except.ok f →
      parseShort vx = some x → parseShort vy = some y → parseShort vw = some w →
      parseShort vh = some h →
      l.load reg st
        = ⟨{ l with _pSelectedFeature := some f, _selectedConfig := ⟨x, y, w, h⟩ },
            rest, none⟩) ∧
    ((l.load reg st).error = none →
      ∃ t vx vy vw vh f x y w h,
        readsForward st t vx vy vw vh (l.load reg st).st ∧
        reg.getFeature t = Except.ok f ∧ parseShort vx = some x ∧ parseShort vy = some y ∧
        parseShort vw = some w ∧ parseShort vh = some h ∧
        (l.load reg st).learner
          = { l with _pSelectedFeature := some f, _selectedConfig := ⟨x, y, w, h⟩ }) ∧
    (∀ (t : List Char) (st1 : StreamTokenizer) (f : HaarFeature),
      readsTag st ['t', 'y', 'p', 'e'] t st1 → reg.getFeature t = Except.ok f →
      (l.load reg st).learner._pSelectedFeature = some f ∧
      ∀ (vx : List Char) (st2 : StreamTokenizer) (x : Short),
        readsTag st1 ['x'] vx st2 → parseShort vx = some x →
        (l.load reg st).learner._selectedConfig.x = x ∧
        ∀ (vy : List Char) (st3 : StreamTokenizer) (y : Short),
          readsTag st2 ['y'] vy st3 → parseShort vy = some y →
          (l.load reg st).learner._selectedConfig.y = y ∧
          ∀ (vw : List Char) (st4 : StreamTokenizer) (w : Short),
            readsTag st3 ['w', 'i', 'd', 't', 'h'] vw st4 → parseShort vw = some w →
            (l.load reg st).learner._selectedConfig.width = w ∧
            ∀ (vh : List Char) (st5 : StreamTokenizer) (h : Short),
              readsTag st4 ['h', 'e', 'i', 'g', 'h', 't'] vh st5 → parseShort vh = some h →
              (l.load reg st).learner._selectedConfig.height = h ∧
              (l.load reg st).st = st5 ∧ (l.load reg st).error = none) := by
  refine ⟨load_suffix reg l st,
    fun t vx vy vw vh rest f x y w h hst hf hx hy hw hh =>
      load_of_readsForward reg l st rest t vx vy vw vh f x y w h hst hf hx hy hw hh,
    readsForward_of_load reg l st, ?_⟩
  intro t st1 f ht hg
  refine ⟨load_takes_type reg l st st1 t f ht hg, ?_⟩
  intro vx st2 x hx px
  refine ⟨load_takes_x reg l st st1 st2 t vx f x ht hg hx px, ?_⟩
  intro vy st3 y hy py
  refine ⟨load_takes_y reg l st st1 st2 st3 t vx vy f x y ht hg hx px hy py, ?_⟩
  intro vw st4 w hw pw
  refine ⟨load_takes_width reg l st st1 st2 st3 st4 t vx vy vw f x y w ht hg hx px hy py hw pw,
    ?_⟩
  intro vh st5 h hh ph
  rw [load_height_reads reg l st st1 st2 st3 st4 st5 t vx vy vw vh f x y w h ht hg hx px hy py
    hw pw hh ph]
  exact ⟨rfl, rfl, rfl⟩

end MultiBoost

namespace MultiBoost

open nor_utils UnSerialization

/-- C7 on a stream with an `x` tag in front of the `type` tag and a `y` tag in
front of the `x` tag that is read: neither earlier occurrence is used. -/
theorem load_forward_only_witness :
    freshLearner.load sampleRegistry (tokenize
        "<x>99</x><type>2v</type><y>7</y><x>12</x><y>4</y><width>8</width><height>16</height>".toList)
      = ⟨{ freshLearner with _pSelectedFeature := some ⟨FeatureTypeCode.f2v, 0⟩,
                             _selectedConfig := sampleLearner._selectedConfig },
          [Token.closeTag ['h', 'e', 'i', 'g', 'h', 't']], none⟩ :=
  (load_forward_only sampleRegistry freshLearner (tokenize
      "<x>99</x><type>2v</type><y>7</y><x>12</x><y>4</y><width>8</width><height>16</height>".toList)).2.1
    ['2', 'v'] ['1', '2'] ['4'] ['8'] ['1', '6'] [Token.closeTag ['h', 'e', 'i', 'g', 'h', 't']]
    ⟨FeatureTypeCode.f2v, 0⟩ sampleLearner._selectedConfig.x sampleLearner._selectedConfig.y
    sampleLearner._selectedConfig.width sampleLearner._selectedConfig.height
    ⟨[Token.openTag ['x'], Token.text ['9', '9'], Token.closeTag ['x']],
      [Token.closeTag ['t', 'y', 'p', 'e'], Token.openTag ['y'], Token.text ['7'],
        Token.closeTag ['y']],
      [Token.closeTag ['x']], [Token.closeTag ['y']], [Token.closeTag ['w', 'i', 'd', 't', 'h']],
      by decide, by decide, by decide, by decide, by decide, by decide⟩
    rfl rfl rfl rfl rfl

/-- C9, as stated, fails: on `<type>2v</type><x>12</x>` the `y` tag is missing,
`load` fails with `MalformedSerializedFeature`, and the learner is left with
the feature "2v" and `x = 12` where it had no feature and `x = 0` before. -/
theorem load_failure_keeps_assignments :
    (freshLearner.load sampleRegistry (tokenize "<type>2v</type><x>12</x>".toList)).error
      = some LoadError.MalformedSerializedFeature ∧
    freshLearner._pSelectedFeature = none ∧
    (freshLearner.load sampleRegistry
        (tokenize "<type>2v</type><x>12</x>".toList)).learner._pSelectedFeature
      = some ⟨FeatureTypeCode.f2v, 0⟩ ∧
    freshLearner._selectedConfig.x.val = 0 ∧
    (freshLearner.load sampleRegistry
        (tokenize "<type>2v</type><x>12</x>".toList)).learner._selectedConfig.x.val = 12 := by
  decide

/-- C9, amended: a failed `load` rolls nothing back.  When no `type` value can be
read, or the code read is not in the registry, the learner is as before the
call.  Once the type is resolved to the registry entry `f`, a failure at `x`
leaves the learner with `f` and its old rectangle; a failure at `y` leaves it
with `f` and the new `x`; a failure at `width` with `f` and the new `x` and
`y`; a failure at `height` with `f` and the new `x`, `y` and `width`.  Every
failed load is one of these cases. -/
theorem load_failure_state (reg : FeatureRegistry) (l : HaarLearner) (st : StreamTokenizer) :
    (failsTag parseString st ['t', 'y', 'p', 'e'] →
      (l.load reg st).learner = l ∧
      (l.load reg st).error = some LoadError.MalformedSerializedFeature) ∧
    (∀ (t : List Char) (st1 : StreamTokenizer), readsTag st ['t', 'y', 'p', 'e'] t st1 →
      (∀ e, reg.getFeature t = Except.error e →
        (l.load reg st).learner = l ∧
        (l.load reg st).error = some LoadError.UnknownFeatureType) ∧
      ∀ f, reg.getFeature t = Except.ok f →
        (failsTag parseShort st1 ['x'] →
          (l.load reg st).learner = { l with _pSelectedFeature := some f } ∧
          (l.load reg st).error = some LoadError.MalformedSerializedFeature) ∧
        ∀ (vx : List Char) (st2 : StreamTokenizer) (x : Short),
          readsTag st1 ['x'] vx st2 → parseShort vx = some x →
          (failsTag parseShort st2 ['y'] →
            (l.load reg st).learner
              = { l with _pSelectedFeature := some f,
                         _selectedConfig := { l._selectedConfig with x := x } } ∧
            (l.load reg st).error = some LoadError.MalformedSerializedFeature) ∧
          ∀ (vy : List Char) (st3 : StreamTokenizer) (y : Short),
            readsTag st2 ['y'] vy st3 → parseShort vy = some y →
            (failsTag parseShort st3 ['w', 'i', 'd', 't', 'h'] →
              (l.load reg st).learner
                = { l with _pSelectedFeature := some f,
                           _selectedConfig := { l._selectedConfig with x := x, y := y } } ∧
              (l.load reg st).error = some LoadError.MalformedSerializedFeature) ∧
            ∀ (vw : List Char) (st4 : StreamTokenizer) (w : Short),
              readsTag st3 ['w', 'i', 'd', 't', 'h'] vw st4 → parseShort vw = some w →
              failsTag parseShort st4 ['h', 'e', 'i', 'g', 'h', 't'] →
              (l.load reg st).learner
                = { l with _pSelectedFeature := some f,
                           _selectedConfig :=
                             { l._selectedConfig with x := x, y := y, width := w } } ∧
              (l.load reg st).error = some LoadError.MalformedSerializedFeature) ∧
    ((l.load reg st).error ≠ none →
      failsTag parseString st ['t', 'y', 'p', 'e'] ∨
      ∃ t st1, readsTag st ['t', 'y', 'p', 'e'] t st1 ∧
        ((∃ e, reg.getFeature t = Except.error e) ∨
        ∃ f, reg.getFeature t = Except.ok f ∧
          (failsTag parseShort st1 ['x'] ∨
          ∃ vx st2 x, readsTag st1 ['x'] vx st2 ∧ parseShort vx = some x ∧
            (failsTag parseShort st2 ['y'] ∨
            ∃ vy st3 y, readsTag st2 ['y'] vy st3 ∧ parseShort vy = some y ∧
              (failsTag parseShort st3 ['w', 'i', 'd', 't', 'h'] ∨
              ∃ vw st4 w, readsTag st3 ['w', 'i', 'd', 't', 'h'] vw st4 ∧
                parseShort vw = some w ∧
                failsTag parseShort st4 ['h', 'e', 'i', 'g', 'h', 't']))))) := by
  refine ⟨load_type_fails reg l st, ?_, ?_⟩
  · intro t st1 ht
    refine ⟨fun e hg => ?_, fun f hg => ⟨load_x_fails reg l st st1 t f ht hg, ?_⟩⟩
    · rw [load_lookup_fails reg l st st1 t e ht hg]
      exact ⟨rfl, rfl⟩
    intro vx st2 x hx px
    refine ⟨load_y_fails reg l st st1 st2 t vx f x ht hg hx px, ?_⟩
    intro vy st3 y hy py
    refine ⟨load_width_fails reg l st st1 st2 st3 t vx vy f x y ht hg hx px hy py, ?_⟩
    intro vw st4 w hw pw hh
    exact load_height_fails reg l st st1 st2 st3 st4 t vx vy vw f x y w ht hg hx px hy py hw pw hh
  · intro hfail
    rcases load_cases reg l st with ⟨e, st1, h1, -⟩ | ⟨t, st1, h1, hrest⟩
    · exact Or.inl (failsTag_of_seekAndParse _ _ _ _ _ h1)
    obtain ⟨v0, r0, q0⟩ := readsTag_of_seekAndParse _ _ _ _ _ h1
    simp only [parseString, Option.some.injEq] at q0
    subst q0
    refine Or.inr ⟨v0, st1, r0, ?_⟩
    rcases hrest with ⟨e, hg, -⟩ | ⟨f, hg, hrest⟩
    · exact Or.inl ⟨e, hg⟩
    refine Or.inr ⟨f, hg, ?_⟩
    rcases hrest with ⟨e, st2, h2, -⟩ | ⟨x, st2, h2, hrest⟩
    · exact Or.inl (failsTag_of_seekAndParse _ _ _ _ _ h2)
    obtain ⟨vx, rx, qx⟩ := readsTag_of_seekAndParse _ _ _ _ _ h2
    refine Or.inr ⟨vx, st2, x, rx, qx, ?_⟩
    rcases hrest with ⟨e, st3, h3, -⟩ | ⟨y, st3, h3, hrest⟩
    · exact Or.inl (failsTag_of_seekAndParse _ _ _ _ _ h3)
    obtain ⟨vy, ry, qy⟩ := readsTag_of_seekAndParse _ _ _ _ _ h3
    refine Or.inr ⟨vy, st3, y, ry, qy, ?_⟩
    rcases hrest with ⟨e, st4, h4, -⟩ | ⟨w, st4, h4, hrest⟩
    · exact Or.inl (failsTag_of_seekAndParse _ _ _ _ _ h4)
    obtain ⟨vw, rw4, qw⟩ := readsTag_of_seekAndParse _ _ _ _ _ h4
    refine Or.inr ⟨vw, st4, w, rw4, qw, ?_⟩
    rcases hrest with ⟨e, st5, h5, -⟩ | ⟨h, st5, h5, hl⟩
    · exact failsTag_of_seekAndParse _ _ _ _ _ h5
    · rw [hl] at hfail
      exact absurd rfl hfail

/-- C9, amended, on the stream `<type>2v</type><x>12</x>`: the `y` tag is missing
and the failed load leaves the feature "2v" and `x = 12` in a learner that had
no feature and `x = 0`. -/
theorem load_failure_state_witness :
    (freshLearner.load sampleRegistry (tokenize "<type>2v</type><x>12</x>".toList)).learner
      = { freshLearner with
            _pSelectedFeature := some ⟨FeatureTypeCode.f2v, 0⟩,
            _selectedConfig := { freshLearner._selectedConfig with
                                  x := sampleLearner._selectedConfig.x } } ∧
    (freshLearner.load sampleRegistry (tokenize "<type>2v</type><x>12</x>".toList)).error
      = some LoadError.MalformedSerializedFeature :=
  ((((load_failure_state sampleRegistry freshLearner
      (tokenize "<type>2v</type><x>12</x>".toList)).2.1 ['2', 'v']
      (tokenize "</type><x>12</x>".toList) ⟨[], by decide, by decide⟩).2
      ⟨FeatureTypeCode.f2v, 0⟩ rfl).2 ['1', '2'] [Token.closeTag ['x']]
      sampleLearner._selectedConfig.x
      ⟨[Token.closeTag ['t', 'y', 'p', 'e']], by decide, by decide⟩ (by decide)).1
    (failsTag_of_not_mem parseShort _ _ (by decide))

end MultiBoost
